import Mathlib

/-!
# go-npio: GPIO register access for the NanoPi M1

A shallow embedding of `npio.go` and `driver/m1.go`.

* Go `int` values (physical ids, bank, index, offsets) are `Int`.
* Go `uint32` values (register words, physical addresses) are `Nat`, with an
  explicit `% 2 ^ 32` wherever a result could leave the 32-bit range.
* `Pin`, `Mode`, `State` and `Pull` are Go `uint8`; they are `Nat` here.
* The process-wide slice `gpioMem` and the sequence of observable events
  (validity-mask lookups, lock, unlock, register reads and writes) are carried
  explicitly in a `Machine`.
* A Go panic is an `Except.error`; the machine state at the panic is kept.
-/

namespace Npio

/-! ## Constants of `npio.go` -/

def SUNXI_GPIO_BASE : Int := 0x01C20800
def GPIO_BASE_BP : Nat := 0x01C20000
def BLOCK_SIZE : Nat := 6 * 1024
def MAP_SIZE : Nat := 4096 * 2
def MAP_MASK : Nat := MAP_SIZE - 1

/-- Number of 32-bit words of `gpioMem` after `Open`: `memMap` maps
`BLOCK_SIZE*10` bytes and divides the slice length by `32 / 8`. -/
def GPIO_WORDS : Nat := BLOCK_SIZE * 10 / (32 / 8)

abbrev Mode := Nat
abbrev Pin := Nat
abbrev State := Nat
abbrev Pull := Nat

def Input : Mode := 0
def Output : Mode := 1
def Clock : Mode := 2
def Pwm : Mode := 3
def Spi : Mode := 4
def Alt0 : Mode := 5
def Alt1 : Mode := 6
def Alt2 : Mode := 7
def Alt3 : Mode := 8
def Alt4 : Mode := 9
def Alt5 : Mode := 10

def Low : State := 0
def High : State := 1

def PullOff : Pull := 0
def PullDown : Pull := 1
def PullUp : Pull := 2
def PullNone : Pull := 3

/-! ## `driver/m1.go` -/

/-- Modelled from the spec: the declaration of `driver.MAX_PIN_COUNT` is not among
the sources. The spec calls it the length of the pin-map table (logical pins are
`0..N-1`); the table literal of `NewM1` has 74 entries, commented `0` to `73`. -/
def MAX_PIN_COUNT : Nat := 74

/-- The `pintoGpio` array literal of `NewM1`. -/
def pintoGpio : List Int :=
  [ 0, 6,
    2, 3,
    200, 201,
    1, 203,
    12, 11,
    67, 17,
    64, 65,
    66, 198,
    199, -1,
    -1, -1,
    -1, 20,
    21, 8,
    13, 9,
    7, 16,
    15, 14,
    19, 18,
    4, 5,
    -1, -1, -1, -1, -1, -1, -1, -1, -1, -1, -1, -1, -1, -1,
    -1, -1, -1, -1, -1, -1, -1, -1, -1, -1, -1, -1, -1, -1, -1, -1,
    -1, -1, -1, -1, -1, -1, -1, -1, -1, -1 ]

/-- The method `M1.PinToGpio`: `d.pintoGpio[p]`. `none` is Go's index-out-of-range panic. -/
def PinToGpio (p : Nat) : Option Int := pintoGpio[p]?

/-! ## Machine state and faults -/

/-- Observable steps of a pin operation. -/
inductive Event where
  | maskLookup (bank index : Int)
  | lock
  | unlock
  | read (seek : Nat)
  | write (seek : Nat) (val : Nat)
deriving DecidableEq, Repr

/-- The mapped GPIO window and the events issued so far (oldest first). -/
structure Machine where
  gpioMem : List Nat
  events : List Event
deriving DecidableEq, Repr

/-- The two ways a pin operation can panic. -/
inductive Fault where
  /-- Go runtime panic: array or slice index out of range. -/
  | indexOutOfRange
  /-- The explicit `panic(fmt.Sprintf("BP_PIN_MASK pin(%d) number error\n", pin))`. -/
  | pinMaskError (pin : Nat)
deriving DecidableEq, Repr

def emit (e : Event) (m : Machine) : Machine :=
  { m with events := m.events ++ [e] }

/-! ## Go integer operators -/

/-- Go `x >> k` on `int`: arithmetic shift, the floor of `x / 2^k`. -/
def sar (x : Int) (k : Nat) : Int := x / 2 ^ k

/-- Go `x << k` on `int` (no value here comes near the width of `int`). -/
def sal (x : Int) (k : Nat) : Int := x * 2 ^ k

/-- Go conversion `uint32(x)` of an `int`. -/
def toUint32 (x : Int) : Nat := (x % 2 ^ 32).toNat

/-- Go `c << k` evaluated in `uint32`, the shift count `k` an `int`
(never negative where it is used). -/
def shl32 (c : Nat) (k : Int) : Nat := (c <<< k.toNat) % 2 ^ 32

/-- Go `^x` on `uint32`. -/
def not32 (x : Nat) : Nat := 0xFFFFFFFF ^^^ (x % 2 ^ 32)

/-- The validity table `driver.BP_PIN_MASK[bank][index]`, taken as a parameter
(its declaration is not among the sources). `none` is an index out of range. -/
def maskAt (mask : List (List Int)) (bank index : Int) : Option Int :=
  if bank < 0 ∨ index < 0 then none
  else
    match mask[bank.toNat]? with
    | none => none
    | some row => row[index.toNat]?

/-! ## `readl` / `writel` -/

/-- The slice index computed by `readl` and `writel`. -/
def mmap_seek (addr : Nat) : Nat :=
  let mmap_base := addr &&& not32 MAP_MASK
  ((addr + 2 ^ 32 - mmap_base) % 2 ^ 32) >>> 2

def readl (addr : Nat) (m : Machine) : Except Fault Nat × Machine :=
  match m.gpioMem[mmap_seek addr]? with
  | none => (.error .indexOutOfRange, m)
  | some val => (.ok val, emit (.read (mmap_seek addr)) m)

def writel (val addr : Nat) (m : Machine) : Except Fault Unit × Machine :=
  if mmap_seek addr < m.gpioMem.length then
    (.ok (), emit (.write (mmap_seek addr) val)
      { m with gpioMem := m.gpioMem.set (mmap_seek addr) val })
  else (.error .indexOutOfRange, m)

/-! ## Pin operations -/

/-- The function `PinMode`. The deferred `memlock.Unlock()` runs on every exit after `Lock`. -/
def PinMode (mask : List (List Int)) (pin : Pin) (mode : Mode) (m : Machine) :
    Except Fault Unit × Machine :=
  if pin > MAX_PIN_COUNT then (.ok (), m)
  else
    match PinToGpio pin with
    | none => (.error .indexOutOfRange, m)
    | some pv =>
      if -1 = pv then (.ok (), m)
      else
        let bank : Int := sar pv 5
        let index : Int := pv - sal bank 5
        let offset : Int := sal (index - sal (sar index 3) 3) 2
        match maskAt mask bank index with
        | none => (.error .indexOutOfRange, m)
        | some v =>
          let m := emit (.maskLookup bank index) m
          if v = -1 then (.error (.pinMaskError pin), m)
          else
            let phyaddr := toUint32 (SUNXI_GPIO_BASE + bank * 36 + sal (sar index 3) 2)
            let m := emit .lock m
            match readl phyaddr m with
            | (.error f, m) => (.error f, emit .unlock m)
            | (.ok regval, m) =>
              if mode = Input then
                let regval := regval &&& not32 (shl32 7 offset)
                match writel regval phyaddr m with
                | (.error f, m) => (.error f, emit .unlock m)
                | (.ok _, m) => (.ok (), emit .unlock m)
              else if mode = Output then
                let regval := regval &&& not32 (shl32 7 offset)
                let regval := regval ||| shl32 1 offset
                match writel regval phyaddr m with
                | (.error f, m) => (.error f, emit .unlock m)
                | (.ok _, m) => (.ok (), emit .unlock m)
              else (.ok (), emit .unlock m)

/-- The function `WritePin`. `Unlock` is not deferred: a panic after `Lock` leaves it held. -/
def WritePin (mask : List (List Int)) (pin : Pin) (state : State) (m : Machine) :
    Except Fault Unit × Machine :=
  if pin > MAX_PIN_COUNT then (.ok (), m)
  else
    match PinToGpio pin with
    | none => (.error .indexOutOfRange, m)
    | some pv =>
      if -1 = pv then (.ok (), m)
      else
        let bank : Int := sar pv 5
        let index : Int := pv - sal bank 5
        match maskAt mask bank index with
        | none => (.error .indexOutOfRange, m)
        | some v =>
          let m := emit (.maskLookup bank index) m
          if v = -1 then (.error (.pinMaskError pin), m)
          else
            let phyaddr := toUint32 (SUNXI_GPIO_BASE + bank * 36 + 0x10)
            let m := emit .lock m
            match readl phyaddr m with
            | (.error f, m) => (.error f, m)
            | (.ok regval, m) =>
              let regval :=
                if state = Low then regval &&& not32 (shl32 1 index)
                else regval ||| shl32 1 index
              match writel regval phyaddr m with
              | (.error f, m) => (.error f, m)
              | (.ok _, m) => (.ok (), emit .unlock m)

/-- The function `ReadPin`. -/
def ReadPin (mask : List (List Int)) (pin : Pin) (m : Machine) :
    Except Fault State × Machine :=
  if pin > MAX_PIN_COUNT then (.ok Low, m)
  else
    match PinToGpio pin with
    | none => (.error .indexOutOfRange, m)
    | some pv =>
      if -1 = pv then (.ok Low, m)
      else
        let bank : Int := sar pv 5
        let index : Int := pv - sal bank 5
        match maskAt mask bank index with
        | none => (.error .indexOutOfRange, m)
        | some v =>
          let m := emit (.maskLookup bank index) m
          if v = -1 then (.error (.pinMaskError pin), m)
          else
            let phyaddr := toUint32 (SUNXI_GPIO_BASE + bank * 36 + 0x10)
            match readl phyaddr m with
            | (.error f, m) => (.error f, m)
            | (.ok regval, m) =>
              let regval := regval >>> index.toNat
              let regval := regval &&& 1
              if regval > 0 then (.ok High, m) else (.ok Low, m)

/-- The function `TogglePin`. -/
def TogglePin (mask : List (List Int)) (pin : Pin) (m : Machine) :
    Except Fault Unit × Machine :=
  match ReadPin mask pin m with
  | (.error f, m) => (.error f, m)
  | (.ok state, m) =>
    if state = Low then WritePin mask pin High m
    else if state = High then WritePin mask pin Low m
    else (.ok (), m)

/-- The function `PullMode`. It takes no lock. -/
def PullMode (mask : List (List Int)) (pin : Pin) (pull : Pull) (m : Machine) :
    Except Fault Unit × Machine :=
  if pin > MAX_PIN_COUNT then (.ok (), m)
  else
    match PinToGpio pin with
    | none => (.error .indexOutOfRange, m)
    | some pv =>
      if -1 = pv then (.ok (), m)
      else
        let bank : Int := sar pv 5
        let index : Int := pv - sal bank 5
        let sub : Int := sar index 4
        let sub_index : Int := index - 16 * sub
        match maskAt mask bank index with
        | none => (.error .indexOutOfRange, m)
        | some v =>
          let m := emit (.maskLookup bank index) m
          if v = -1 then (.error (.pinMaskError pin), m)
          else
            let pud : Nat :=
              if pull = PullOff then 7
              else if pull = PullUp then 7
              else if pull = PullDown then 5
              else 0
            let pud := pud &&& 3
            let phyaddr := toUint32 (SUNXI_GPIO_BASE + bank * 36 + 0x1c + sub * 4)
            match readl phyaddr m with
            | (.error f, m) => (.error f, m)
            | (.ok regval, m) =>
              let regval := regval &&& not32 (shl32 3 (sal sub_index 1))
              let regval := regval ||| shl32 pud (sal sub_index 1)
              writel regval phyaddr m

/-! ## Vocabulary of the statements -/

/-- The pin resolves through the M1 pin map to the non-sentinel physical id `pv`
and the validity mask holds an entry other than `-1` for it. -/
def ValidPin (mask : List (List Int)) (pin : Pin) (pv : Nat) : Prop :=
  PinToGpio pin = some (pv : Int) ∧
    ∃ v, maskAt mask ((pv >>> 5 : Nat) : Int) ((pv &&& 31 : Nat) : Int) = some v ∧ v ≠ -1

/-- Index in `gpioMem` of the word at the physical address `uint32(addr)`. -/
def wordOf (addr : Int) : Nat := mmap_seek (toUint32 addr)

/-- The word `WritePin` stores in the data register, from the word it read. -/
def writeWord (state : State) (old index : Nat) : Nat :=
  if state = Low then old &&& not32 (shl32 1 (index : Int)) else old ||| shl32 1 (index : Int)

/-- A validity table with nine banks of 32 entries, none of them `-1`. -/
def openMask : List (List Int) := List.replicate 9 (List.replicate 32 0)

/-- A freshly mapped window: `GPIO_WORDS` zero words and no event yet. -/
def zeroMachine : Machine := { gpioMem := List.replicate GPIO_WORDS 0, events := [] }

/-- The word `PinMode` stores in the mode register for `Input` (field cleared) and, for
any other mode that writes, `Output` (field cleared, then its lowest bit set). -/
def modeWord (mode : Mode) (old off : Nat) : Nat :=
  if mode = Input then old &&& not32 (shl32 7 (off : Int))
  else (old &&& not32 (shl32 7 (off : Int))) ||| shl32 1 (off : Int)

/-- The 2-bit code `PullMode` computes in `pud` (the `switch`, then `pud &= 3`). -/
def pullCode (pull : Pull) : Nat :=
  (if pull = PullOff then 7 else if pull = PullUp then 7 else if pull = PullDown then 5 else 0)
    &&& 3

/-- The word `PullMode` stores in the pull register, from the word it read. -/
def pullWord (pull : Pull) (old off : Nat) : Nat :=
  (old &&& not32 (shl32 3 (off : Int))) ||| shl32 (pullCode pull) (off : Int)

/-- A validity table with nine banks of 32 entries, all of them `-1`. -/
def closedMask : List (List Int) := List.replicate 9 (List.replicate 32 (-1))

/-- Lock discipline of an event sequence: scanning it with the lock initially in state
`held`, every register read and every register write happens while the lock is held. -/
def underLock : Bool → List Event → Bool
  | _, [] => true
  | _, .lock :: es => underLock true es
  | _, .unlock :: es => underLock false es
  | held, .read _ :: es => held && underLock held es
  | held, .write _ _ :: es => held && underLock held es
  | held, .maskLookup _ _ :: es => underLock held es

/-- The events a call added to the trace of the machine it started from. -/
def emitted (before after : Machine) : List Event :=
  after.events.drop before.events.length

/-- Byte offsets, within a bank's 36-byte block, of the registers the operations use:
four mode registers, the data register, two pull registers. -/
def registerOffsets : List Nat := [0x0, 0x4, 0x8, 0xC, 0x10, 0x1C, 0x20]

/-! ## The pin map and address arithmetic -/

theorem pintoGpio_range : ∀ pv ∈ pintoGpio, pv = -1 ∨ (0 ≤ pv ∧ pv ≤ 203) := by
  decide

theorem PinToGpio_le {pin pv : Nat} (h : PinToGpio pin = some (pv : Int)) : pv ≤ 203 := by
  have hm : (pv : Int) ∈ pintoGpio := List.getElem?_mem h
  rcases pintoGpio_range _ hm with h1 | h1 <;> omega

theorem PinToGpio_lt {pin : Nat} {pv : Int} (h : PinToGpio pin = some pv) :
    pin < MAX_PIN_COUNT := by
  unfold PinToGpio at h
  have := (List.getElem?_eq_some_iff.mp h).1
  simpa [pintoGpio, MAX_PIN_COUNT] using this

theorem sar_nat (n k : Nat) : sar (n : Int) k = ((n >>> k : Nat) : Int) := by
  simp [sar, Nat.shiftRight_eq_div_pow]

theorem and_31 (n : Nat) : n &&& 31 = n % 32 := Nat.and_pow_two_sub_one_eq_mod n 5

theorem index_nat (n : Nat) :
    (n : Int) - sal ((n >>> 5 : Nat) : Int) 5 = ((n &&& 31 : Nat) : Int) := by
  rw [and_31, Nat.shiftRight_eq_div_pow]
  simp [sal]
  omega

theorem dataAddr_nat (b : Nat) (hb : b ≤ 6) :
    toUint32 (SUNXI_GPIO_BASE + (b : Int) * 36 + 0x10) = 0x01C20810 + b * 36 := by
  simp only [toUint32, SUNXI_GPIO_BASE]
  omega

theorem dataSeek (b : Nat) (hb : b ≤ 6) : mmap_seek (0x01C20810 + b * 36) = 516 + 9 * b := by
  interval_cases b <;> rfl


theorem bank_le {pv : Nat} (h : pv ≤ 203) : pv >>> 5 ≤ 6 := by
  rw [Nat.shiftRight_eq_div_pow]; omega

theorem WritePin_valid {mask : List (List Int)} {pin pv : Nat} (state : State) (m : Machine)
    (hv : ValidPin mask pin pv) (hlen : m.gpioMem.length = GPIO_WORDS) :
    ∃ old, m.gpioMem[516 + 9 * (pv >>> 5)]? = some old ∧
      WritePin mask pin state m =
        (.ok (),
          { gpioMem := m.gpioMem.set (516 + 9 * (pv >>> 5)) (writeWord state old (pv &&& 31)),
            events := m.events ++
              [.maskLookup ((pv >>> 5 : Nat) : Int) ((pv &&& 31 : Nat) : Int), .lock,
               .read (516 + 9 * (pv >>> 5)),
               .write (516 + 9 * (pv >>> 5)) (writeWord state old (pv &&& 31)), .unlock] }) := by
  obtain ⟨hp, v, hmask, hvne⟩ := hv
  have hpv := PinToGpio_le hp
  have hb := bank_le hpv
  have hpin : ¬ pin > MAX_PIN_COUNT := by have := PinToGpio_lt hp; omega
  have hlt : 516 + 9 * (pv >>> 5) < m.gpioMem.length := by
    rw [hlen]; simp only [GPIO_WORDS, BLOCK_SIZE]; omega
  refine ⟨m.gpioMem[516 + 9 * (pv >>> 5)], List.getElem?_eq_getElem hlt, ?_⟩
  have hsent : ¬ (-1 : Int) = (pv : Int) := by omega
  simp only [WritePin, hpin, if_false, hp, hsent, sar_nat, index_nat, hmask, hvne,
    dataAddr_nat _ hb, readl, writel, dataSeek _ hb, emit, List.getElem?_eq_getElem hlt,
    List.length_set, hlt, if_true, writeWord, List.append_assoc, List.singleton_append,
    List.cons_append, List.nil_append]


theorem testBit_not32 (x i : Nat) (hi : i < 32) : (not32 x).testBit i = !x.testBit i := by
  show ((2 ^ 32 - 1) ^^^ (x % 2 ^ 32)).testBit i = _
  rw [Nat.testBit_xor, Nat.testBit_two_pow_sub_one, Nat.testBit_mod_two_pow]
  simp [hi]

theorem testBit_not32_ge (x i : Nat) (hi : 32 ≤ i) : (not32 x).testBit i = false := by
  have : ¬ i < 32 := by omega
  show ((2 ^ 32 - 1) ^^^ (x % 2 ^ 32)).testBit i = _
  rw [Nat.testBit_xor, Nat.testBit_two_pow_sub_one, Nat.testBit_mod_two_pow]
  simp [this]

theorem testBit_shl32 (c k i : Nat) (hi : i < 32) :
    (shl32 c (k : Int)).testBit i = (decide (k ≤ i) && c.testBit (i - k)) := by
  show ((c <<< (k : Int).toNat) % 2 ^ 32).testBit i = _
  rw [Nat.testBit_mod_two_pow, Nat.testBit_shiftLeft, Int.toNat_ofNat]
  simp [hi]

theorem testBit_shl32_ge (c : Nat) (k : Int) (i : Nat) (hi : 32 ≤ i) :
    (shl32 c k).testBit i = false := by
  have : ¬ i < 32 := by omega
  show ((c <<< k.toNat) % 2 ^ 32).testBit i = _
  rw [Nat.testBit_mod_two_pow]
  simp [this]

theorem testBit_one (j : Nat) : (1 : Nat).testBit j = decide (j = 0) := by
  have := @Nat.testBit_two_pow 0 j
  simpa [eq_comm] using this

theorem testBit_three (j : Nat) : (3 : Nat).testBit j = decide (j < 2) := by
  have := Nat.testBit_two_pow_sub_one 2 j
  simpa using this

theorem testBit_seven (j : Nat) : (7 : Nat).testBit j = decide (j < 3) := by
  have := Nat.testBit_two_pow_sub_one 3 j
  simpa using this

theorem and_31_lt (n : Nat) : n &&& 31 < 32 := by rw [and_31]; omega

theorem testBit_writeWord (state : State) (old idx i : Nat) (hidx : idx < 32) (hi : i < 32) :
    (writeWord state old idx).testBit i =
      if i = idx then decide (state ≠ Low) else old.testBit i := by
  unfold writeWord
  by_cases hs : state = Low
  · simp only [hs, if_true, Nat.testBit_and, testBit_not32 _ _ hi, testBit_shl32 _ _ _ hi,
      testBit_one]
    by_cases hii : i = idx
    · subst hii; simp
    · have : ¬ (idx ≤ i ∧ i - idx = 0) := by omega
      simp [hii]
      intro _; omega
  · simp only [hs, if_false, Nat.testBit_or, testBit_shl32 _ _ _ hi, testBit_one]
    by_cases hii : i = idx
    · subst hii; simp [hs]
    · simp [hii]
      intro h1 h2; omega

theorem shiftRight_and_one_pos (x k : Nat) : (x >>> k &&& 1 > 0) ↔ x.testBit k = true := by
  simp [Nat.testBit, Nat.and_comm 1, Nat.pos_iff_ne_zero]

theorem ReadPin_valid {mask : List (List Int)} {pin pv : Nat} (m : Machine)
    (hv : ValidPin mask pin pv) (hlen : m.gpioMem.length = GPIO_WORDS) :
    ∃ old, m.gpioMem[516 + 9 * (pv >>> 5)]? = some old ∧
      ReadPin mask pin m =
        (.ok (if old.testBit (pv &&& 31) then High else Low),
          { gpioMem := m.gpioMem,
            events := m.events ++
              [.maskLookup ((pv >>> 5 : Nat) : Int) ((pv &&& 31 : Nat) : Int),
               .read (516 + 9 * (pv >>> 5))] }) := by
  obtain ⟨hp, v, hmask, hvne⟩ := hv
  have hpv := PinToGpio_le hp
  have hb := bank_le hpv
  have hpin : ¬ pin > MAX_PIN_COUNT := by have := PinToGpio_lt hp; omega
  have hlt : 516 + 9 * (pv >>> 5) < m.gpioMem.length := by
    rw [hlen]; simp only [GPIO_WORDS, BLOCK_SIZE]; omega
  refine ⟨m.gpioMem[516 + 9 * (pv >>> 5)], List.getElem?_eq_getElem hlt, ?_⟩
  have hsent : ¬ (-1 : Int) = (pv : Int) := by omega
  simp only [ReadPin, hpin, if_false, hp, hsent, sar_nat, index_nat, hmask, hvne,
    dataAddr_nat _ hb, readl, dataSeek _ hb, emit, List.getElem?_eq_getElem hlt,
    Int.toNat_ofNat, shiftRight_and_one_pos, List.append_assoc, List.singleton_append]
  by_cases hbit : (m.gpioMem[516 + 9 * (pv >>> 5)]).testBit (pv &&& 31) = true <;> simp [hbit]

theorem High_ne_Low : ¬ High = Low := by decide

theorem dataWord (b : Nat) (hb : b ≤ 6) :
    wordOf (SUNXI_GPIO_BASE + (b : Int) * 36 + 0x10) = 516 + 9 * b := by
  rw [wordOf, dataAddr_nat b hb, dataSeek b hb]

theorem validPin_bank {mask : List (List Int)} {pin pv : Nat} (hv : ValidPin mask pin pv) :
    pv >>> 5 ≤ 6 := bank_le (PinToGpio_le hv.1)

theorem TogglePin_valid {mask : List (List Int)} {pin pv : Nat} (m : Machine)
    (hv : ValidPin mask pin pv) (hlen : m.gpioMem.length = GPIO_WORDS) :
    ∃ old, m.gpioMem[516 + 9 * (pv >>> 5)]? = some old ∧
      TogglePin mask pin m =
        (.ok (),
          { gpioMem := m.gpioMem.set (516 + 9 * (pv >>> 5))
              (writeWord (if old.testBit (pv &&& 31) then Low else High) old (pv &&& 31)),
            events := m.events ++
              [.maskLookup ((pv >>> 5 : Nat) : Int) ((pv &&& 31 : Nat) : Int),
               .read (516 + 9 * (pv >>> 5)),
               .maskLookup ((pv >>> 5 : Nat) : Int) ((pv &&& 31 : Nat) : Int), .lock,
               .read (516 + 9 * (pv >>> 5)),
               .write (516 + 9 * (pv >>> 5))
                 (writeWord (if old.testBit (pv &&& 31) then Low else High) old (pv &&& 31)),
               .unlock] }) := by
  obtain ⟨old, hold, hr⟩ := ReadPin_valid m hv hlen
  refine ⟨old, hold, ?_⟩
  have hlen2 : (Machine.mk m.gpioMem (m.events ++
      [.maskLookup ((pv >>> 5 : Nat) : Int) ((pv &&& 31 : Nat) : Int),
       .read (516 + 9 * (pv >>> 5))])).gpioMem.length = GPIO_WORDS := hlen
  by_cases hbit : old.testBit (pv &&& 31) = true
  · obtain ⟨old2, hold2, hw⟩ := WritePin_valid Low _ hv hlen2
    have : old2 = old := by
      have h3 : some old2 = some old := hold2.symm.trans hold
      exact Option.some.inj h3
    subst this
    simp only [TogglePin, hr, hbit, if_true, High_ne_Low, if_false, hw]
    simp
  · obtain ⟨old2, hold2, hw⟩ := WritePin_valid High _ hv hlen2
    have : old2 = old := by
      have h3 : some old2 = some old := hold2.symm.trans hold
      exact Option.some.inj h3
    subst this
    simp only [TogglePin, hr, hbit, if_true, if_false, hw]
    simp

/-- C1: for every register memory (a window of `GPIO_WORDS` words) and every logical pin
that resolves to a non-sentinel physical id accepted by the validity mask,
`WritePin(pin, High)` returns and a following `ReadPin(pin)` returns `High`, and
`WritePin(pin, Low)` returns and a following `ReadPin(pin)` returns `Low`. -/
theorem write_read_round_trip (mask : List (List Int)) (pin : Pin) (pv : Nat) (m : Machine)
    (hv : ValidPin mask pin pv) (hlen : m.gpioMem.length = GPIO_WORDS) :
    (WritePin mask pin High m).1 = .ok () ∧
      (ReadPin mask pin (WritePin mask pin High m).2).1 = .ok High ∧
      (WritePin mask pin Low m).1 = .ok () ∧
      (ReadPin mask pin (WritePin mask pin Low m).2).1 = .ok Low := by
  have key : ∀ state : State, (WritePin mask pin state m).1 = .ok () ∧
      (ReadPin mask pin (WritePin mask pin state m).2).1 =
        .ok (if state ≠ Low then High else Low) := by
    intro state
    obtain ⟨old, hold, hw⟩ := WritePin_valid state m hv hlen
    have hlen2 : (WritePin mask pin state m).2.gpioMem.length = GPIO_WORDS := by
      rw [hw]; simpa using hlen
    obtain ⟨new, hnew, hr⟩ := ReadPin_valid _ hv hlen2
    have hlt : 516 + 9 * (pv >>> 5) < m.gpioMem.length :=
      (List.getElem?_eq_some_iff.mp hold).1
    have hnew2 : new = writeWord state old (pv &&& 31) := by
      rw [hw] at hnew
      simpa [List.getElem?_set_self, hlt] using hnew.symm
    refine ⟨by rw [hw], ?_⟩
    rw [hr, hnew2, testBit_writeWord _ _ _ _ (and_31_lt pv) (and_31_lt pv)]
    by_cases hs : state = Low <;> simp [hs]
  refine ⟨(key High).1, ?_, (key Low).1, ?_⟩
  · simpa [High, Low] using (key High).2
  · simpa using (key Low).2


theorem validPin_six : ValidPin openMask 6 1 := ⟨rfl, 0, rfl, by decide⟩

theorem zeroMachine_length : zeroMachine.gpioMem.length = GPIO_WORDS := by
  simp [zeroMachine]

theorem zeroMachine_getElem? (s : Nat) (hs : s < GPIO_WORDS) :
    zeroMachine.gpioMem[s]? = some 0 := by
  unfold zeroMachine
  simp only [List.getElem?_replicate, hs, if_true]

theorem write_read_round_trip_witness :
    ValidPin openMask 6 1 ∧ zeroMachine.gpioMem.length = GPIO_WORDS ∧
      ((WritePin openMask 6 High zeroMachine).1 = .ok () ∧
        (ReadPin openMask 6 (WritePin openMask 6 High zeroMachine).2).1 = .ok High ∧
        (WritePin openMask 6 Low zeroMachine).1 = .ok () ∧
        (ReadPin openMask 6 (WritePin openMask 6 Low zeroMachine).2).1 = .ok Low) :=
  ⟨validPin_six, zeroMachine_length,
    write_read_round_trip openMask 6 1 zeroMachine validPin_six zeroMachine_length⟩

theorem writeWord_lt (state : State) (old idx : Nat) (h : old < 2 ^ 32) :
    writeWord state old idx < 2 ^ 32 := by
  unfold writeWord
  split
  · exact Nat.lt_of_le_of_lt Nat.and_le_left h
  · exact Nat.or_lt_two_pow h (Nat.mod_lt _ (by norm_num))

/-- C3: for a valid mapped pin with physical id `pv`, the data register at
`SUNXI_GPIO_BASE + bank*36 + 0x10` is word `516 + 9*bank` of the GPIO window, and
`WritePin(pin, state)` returns, keeps the length of register memory, leaves every word other
than that one as it was, and in that word bit `index = pv & 31` is set for `High`, cleared
for `Low`, the 31 other bits are those of the old word, and the new word is again a 32-bit
value. -/
theorem WritePin_touches_one_bit (mask : List (List Int)) (pin : Pin) (pv : Nat) (state : State)
    (m : Machine) (hv : ValidPin mask pin pv) (hlen : m.gpioMem.length = GPIO_WORDS) :
    wordOf (SUNXI_GPIO_BASE + ((pv >>> 5 : Nat) : Int) * 36 + 0x10) = 516 + 9 * (pv >>> 5) ∧
      (WritePin mask pin state m).1 = .ok () ∧
      (WritePin mask pin state m).2.gpioMem.length = m.gpioMem.length ∧
      (∀ j, j ≠ wordOf (SUNXI_GPIO_BASE + ((pv >>> 5 : Nat) : Int) * 36 + 0x10) →
        (WritePin mask pin state m).2.gpioMem[j]? = m.gpioMem[j]?) ∧
      ∃ old new,
        m.gpioMem[wordOf (SUNXI_GPIO_BASE + ((pv >>> 5 : Nat) : Int) * 36 + 0x10)]? = some old ∧
        (WritePin mask pin state m).2.gpioMem[
            wordOf (SUNXI_GPIO_BASE + ((pv >>> 5 : Nat) : Int) * 36 + 0x10)]? = some new ∧
        (state = High → new.testBit (pv &&& 31) = true) ∧
        (state = Low → new.testBit (pv &&& 31) = false) ∧
        (∀ i, i < 32 → i ≠ pv &&& 31 → new.testBit i = old.testBit i) ∧
        (old < 2 ^ 32 → new < 2 ^ 32) := by
  obtain ⟨old, hold, hw⟩ := WritePin_valid state m hv hlen
  have hlt : 516 + 9 * (pv >>> 5) < m.gpioMem.length := (List.getElem?_eq_some_iff.mp hold).1
  rw [dataWord _ (validPin_bank hv), hw]
  refine ⟨rfl, rfl, by simp, ?_, old, writeWord state old (pv &&& 31), hold, ?_, ?_, ?_, ?_,
    ?_⟩
  · intro j hj
    simp [List.getElem?_set_ne (Ne.symm hj)]
  · simp [List.getElem?_set_self, hlt]
  · intro hs
    rw [testBit_writeWord _ _ _ _ (and_31_lt pv) (and_31_lt pv)]
    simp [hs, High_ne_Low]
  · intro hs
    rw [testBit_writeWord _ _ _ _ (and_31_lt pv) (and_31_lt pv)]
    simp [hs]
  · intro i hi hne
    rw [testBit_writeWord _ _ _ _ (and_31_lt pv) hi]
    simp [hne]
  · exact writeWord_lt _ _ _

theorem WritePin_touches_one_bit_witness :
    ValidPin openMask 6 1 ∧ zeroMachine.gpioMem.length = GPIO_WORDS ∧
      wordOf (SUNXI_GPIO_BASE + ((1 >>> 5 : Nat) : Int) * 36 + 0x10) = 516 ∧
      (WritePin openMask 6 High zeroMachine).2.gpioMem.length = zeroMachine.gpioMem.length ∧
      (∀ j, j ≠ 516 →
        (WritePin openMask 6 High zeroMachine).2.gpioMem[j]? = zeroMachine.gpioMem[j]?) ∧
      ∃ new,
        (WritePin openMask 6 High zeroMachine).2.gpioMem[516]? = some new ∧
          new.testBit 1 = true ∧ ∀ i, i < 32 → i ≠ 1 → new.testBit i = false := by
  obtain ⟨hidx, _, hlength, hframe, old, new, hold, hnew, hhigh, _, hrest, _⟩ :=
    WritePin_touches_one_bit openMask 6 1 High zeroMachine validPin_six zeroMachine_length
  have h516 : 516 + 9 * (1 >>> 5) = 516 := by decide
  have h1 : 1 &&& 31 = 1 := by decide
  rw [h516] at hidx
  rw [hidx] at hframe hold hnew
  rw [h1] at hhigh hrest
  have hold0 : old = 0 :=
    Option.some.inj (hold.symm.trans (zeroMachine_getElem? 516 (by decide)))
  subst hold0
  refine ⟨validPin_six, zeroMachine_length, hidx, hlength, hframe, new, hnew, hhigh rfl, ?_⟩
  intro i hi hne
  rw [hrest i hi hne]
  exact Nat.zero_testBit i

/-- C6: for a valid mapped pin, `ReadPin` returns `High` or `Low`, `TogglePin` returns, and
`ReadPin` after `TogglePin` returns `Low` if it returned `High` before and `High` if it
returned `Low` before. -/
theorem TogglePin_flips (mask : List (List Int)) (pin : Pin) (pv : Nat) (m : Machine)
    (hv : ValidPin mask pin pv) (hlen : m.gpioMem.length = GPIO_WORDS) :
    ((ReadPin mask pin m).1 = .ok High ∨ (ReadPin mask pin m).1 = .ok Low) ∧
      (TogglePin mask pin m).1 = .ok () ∧
      ((ReadPin mask pin m).1 = .ok High →
        (ReadPin mask pin (TogglePin mask pin m).2).1 = .ok Low) ∧
      ((ReadPin mask pin m).1 = .ok Low →
        (ReadPin mask pin (TogglePin mask pin m).2).1 = .ok High) := by
  obtain ⟨old, hold, hr⟩ := ReadPin_valid m hv hlen
  obtain ⟨old2, hold2, ht⟩ := TogglePin_valid m hv hlen
  have : old2 = old := Option.some.inj (hold2.symm.trans hold)
  subst this
  have hlt : 516 + 9 * (pv >>> 5) < m.gpioMem.length := (List.getElem?_eq_some_iff.mp hold).1
  have hlen2 : (TogglePin mask pin m).2.gpioMem.length = GPIO_WORDS := by
    rw [ht]; simpa using hlen
  obtain ⟨new, hnew, hr2⟩ := ReadPin_valid _ hv hlen2
  have hnew2 : new = writeWord (if old2.testBit (pv &&& 31) then Low else High) old2
      (pv &&& 31) := by
    rw [ht] at hnew
    simpa [List.getElem?_set_self, hlt] using hnew.symm
  rw [hr, hr2, hnew2, testBit_writeWord _ _ _ _ (and_31_lt pv) (and_31_lt pv), ht]
  by_cases hbit : old2.testBit (pv &&& 31) = true
  · simp [hbit, High_ne_Low]
  · simp [hbit, High_ne_Low]
    intro h; exact absurd h.symm High_ne_Low

theorem TogglePin_flips_witness :
    ValidPin openMask 6 1 ∧ zeroMachine.gpioMem.length = GPIO_WORDS ∧
      (ReadPin openMask 6 (TogglePin openMask 6 zeroMachine).2).1 = .ok High :=
  ⟨validPin_six, zeroMachine_length,
    (TogglePin_flips openMask 6 1 zeroMachine validPin_six zeroMachine_length).2.2.2
      (by
        have h := ReadPin_valid zeroMachine validPin_six zeroMachine_length
        obtain ⟨old, hold, hr⟩ := h
        have : old = 0 := by
          have h0 : zeroMachine.gpioMem[516 + 9 * (1 >>> 5)]? = some 0 := by
            rw [zeroMachine, List.getElem?_replicate]; simp [GPIO_WORDS, BLOCK_SIZE]
          exact Option.some.inj (hold.symm.trans h0)
        subst this
        rw [hr]; simp)⟩

theorem offset_nat (i : Nat) :
    sal ((i : Int) - sal ((i >>> 3 : Nat) : Int) 3) 2 = (((i % 8) * 4 : Nat) : Int) := by
  rw [Nat.shiftRight_eq_div_pow]
  simp [sal]
  omega

theorem modeAddr_nat (b i : Nat) (hb : b ≤ 6) (hi : i < 32) :
    toUint32 (SUNXI_GPIO_BASE + (b : Int) * (36 : Int) + sal ((i >>> 3 : Nat) : Int) 2) =
      0x01C20800 + b * 36 + (i >>> 3) * 4 := by
  rw [Nat.shiftRight_eq_div_pow]
  simp only [toUint32, SUNXI_GPIO_BASE, sal]
  push_cast
  omega

theorem modeSeek (b k : Nat) (hb : b ≤ 6) (hk : k ≤ 3) :
    mmap_seek (0x01C20800 + b * 36 + k * 4) = 512 + 9 * b + k := by
  interval_cases b <;> interval_cases k <;> rfl

theorem shr3_le (i : Nat) (hi : i < 32) : i >>> 3 ≤ 3 := by
  rw [Nat.shiftRight_eq_div_pow]; omega

theorem modeWordIdx (b i : Nat) (hb : b ≤ 6) (hi : i < 32) :
    wordOf (SUNXI_GPIO_BASE + (b : Int) * 36 + sal (sar (i : Int) 3) 2) =
      512 + 9 * b + i >>> 3 := by
  rw [wordOf, sar_nat, modeAddr_nat b i hb hi, modeSeek b _ hb (shr3_le i hi)]

theorem PinMode_valid_rw {mask : List (List Int)} {pin pv : Nat} (mode : Mode) (m : Machine)
    (hv : ValidPin mask pin pv) (hlen : m.gpioMem.length = GPIO_WORDS)
    (hmode : mode = Input ∨ mode = Output) :
    ∃ old, m.gpioMem[512 + 9 * (pv >>> 5) + (pv &&& 31) >>> 3]? = some old ∧
      PinMode mask pin mode m =
        (.ok (),
          { gpioMem := m.gpioMem.set (512 + 9 * (pv >>> 5) + (pv &&& 31) >>> 3)
              (modeWord mode old ((pv &&& 31) % 8 * 4)),
            events := m.events ++
              [.maskLookup ((pv >>> 5 : Nat) : Int) ((pv &&& 31 : Nat) : Int), .lock,
               .read (512 + 9 * (pv >>> 5) + (pv &&& 31) >>> 3),
               .write (512 + 9 * (pv >>> 5) + (pv &&& 31) >>> 3)
                 (modeWord mode old ((pv &&& 31) % 8 * 4)), .unlock] }) := by
  obtain ⟨hp, v, hmask, hvne⟩ := hv
  have hpv := PinToGpio_le hp
  have hb := bank_le hpv
  have hi := and_31_lt pv
  have hk := shr3_le _ hi
  have hpin : ¬ pin > MAX_PIN_COUNT := by have := PinToGpio_lt hp; omega
  have hlt : 512 + 9 * (pv >>> 5) + (pv &&& 31) >>> 3 < m.gpioMem.length := by
    rw [hlen]; simp only [GPIO_WORDS, BLOCK_SIZE]; omega
  refine ⟨m.gpioMem[512 + 9 * (pv >>> 5) + (pv &&& 31) >>> 3], List.getElem?_eq_getElem hlt, ?_⟩
  have hsent : ¬ (-1 : Int) = (pv : Int) := by omega
  have hout : ¬ Output = Input := by decide
  rcases hmode with hm | hm <;> subst hm <;>
  simp only [PinMode, hpin, if_false, hp, hsent, sar_nat, index_nat, offset_nat, hmask, hvne,
    modeAddr_nat _ _ hb hi, readl, writel, modeSeek _ _ hb hk, emit,
    List.getElem?_eq_getElem hlt, List.length_set, hlt, if_true, modeWord, hout,
    List.append_assoc, List.singleton_append, List.cons_append, List.nil_append]

theorem PinMode_valid_other {mask : List (List Int)} {pin pv : Nat} (mode : Mode) (m : Machine)
    (hv : ValidPin mask pin pv) (hlen : m.gpioMem.length = GPIO_WORDS)
    (h1 : mode ≠ Input) (h2 : mode ≠ Output) :
    PinMode mask pin mode m =
      (.ok (),
        { gpioMem := m.gpioMem,
          events := m.events ++
            [.maskLookup ((pv >>> 5 : Nat) : Int) ((pv &&& 31 : Nat) : Int), .lock,
             .read (512 + 9 * (pv >>> 5) + (pv &&& 31) >>> 3), .unlock] }) := by
  obtain ⟨hp, v, hmask, hvne⟩ := hv
  have hpv := PinToGpio_le hp
  have hb := bank_le hpv
  have hi := and_31_lt pv
  have hk := shr3_le _ hi
  have hpin : ¬ pin > MAX_PIN_COUNT := by have := PinToGpio_lt hp; omega
  have hlt : 512 + 9 * (pv >>> 5) + (pv &&& 31) >>> 3 < m.gpioMem.length := by
    rw [hlen]; simp only [GPIO_WORDS, BLOCK_SIZE]; omega
  have hsent : ¬ (-1 : Int) = (pv : Int) := by omega
  simp only [PinMode, hpin, if_false, hp, hsent, sar_nat, index_nat, hmask, hvne,
    modeAddr_nat _ _ hb hi, readl, modeSeek _ _ hb hk, emit,
    List.getElem?_eq_getElem hlt, h1, h2,
    List.append_assoc, List.singleton_append, List.cons_append, List.nil_append]

theorem testBit_modeWord (mode : Mode) (old off i : Nat) (hi : i < 32) :
    (modeWord mode old off).testBit i =
      if off ≤ i ∧ i ≤ off + 2 then decide (mode ≠ Input ∧ i = off) else old.testBit i := by
  unfold modeWord
  by_cases hm : mode = Input
  · simp only [hm, if_true, Nat.testBit_and, testBit_not32 _ _ hi, testBit_shl32 _ _ _ hi,
      testBit_seven]
    by_cases hr : off ≤ i ∧ i ≤ off + 2
    · have : i - off < 3 := by omega
      simp [hr, this]
    · have : ¬ (off ≤ i ∧ i - off < 3) := by omega
      simp only [hr, if_false]
      by_cases h1 : off ≤ i
      · have : ¬ i - off < 3 := by omega
        simp [h1, this]
      · simp [h1]
  · simp only [hm, if_false, Nat.testBit_and, Nat.testBit_or, testBit_not32 _ _ hi,
      testBit_shl32 _ _ _ hi, testBit_seven, testBit_one]
    by_cases hr : off ≤ i ∧ i ≤ off + 2
    · have h3 : i - off < 3 := by omega
      by_cases h0 : i = off
      · subst h0; simp [hm]
      · have : ¬ i - off = 0 := by omega
        simp [hr, h3, h0, this]
    · simp only [hr, if_false]
      by_cases h1 : off ≤ i
      · have h3 : ¬ i - off < 3 := by omega
        have h4 : ¬ i - off = 0 := by omega
        simp [h1, h3, h4]
      · simp [h1]

theorem modeWord_lt (mode : Mode) (old off : Nat) (h : old < 2 ^ 32) :
    modeWord mode old off < 2 ^ 32 := by
  unfold modeWord
  split
  · exact Nat.lt_of_le_of_lt Nat.and_le_left h
  · exact Nat.or_lt_two_pow (Nat.lt_of_le_of_lt Nat.and_le_left h) (Nat.mod_lt _ (by norm_num))

theorem Output_ne_Input : ¬ Output = Input := by decide

/-- C2: for a valid mapped pin with physical id `pv` (bank `pv >> 5`, index `pv & 31`),
`PinMode(pin, Output)` returns, keeps the length of register memory, leaves every word other
than the mode register word at `SUNXI_GPIO_BASE + bank*36 + ((index >> 3) << 2)` as it was,
and in that word sets the three bits `o .. o+2`, `o = (index mod 8) * 4`, to the value 1
(bit `o` set, bits `o+1` and `o+2` clear) while every other bit, bit `o+3` included, keeps
its old value; a 32-bit old word gives a 32-bit new word. -/
theorem PinMode_output_field (mask : List (List Int)) (pin : Pin) (pv : Nat) (m : Machine)
    (hv : ValidPin mask pin pv) (hlen : m.gpioMem.length = GPIO_WORDS) :
    (PinMode mask pin Output m).1 = .ok () ∧
      (PinMode mask pin Output m).2.gpioMem.length = m.gpioMem.length ∧
      (∀ j, j ≠ wordOf (SUNXI_GPIO_BASE + ((pv >>> 5 : Nat) : Int) * 36 +
            sal (sar ((pv &&& 31 : Nat) : Int) 3) 2) →
        (PinMode mask pin Output m).2.gpioMem[j]? = m.gpioMem[j]?) ∧
      ∃ old new,
        m.gpioMem[wordOf (SUNXI_GPIO_BASE + ((pv >>> 5 : Nat) : Int) * 36 +
            sal (sar ((pv &&& 31 : Nat) : Int) 3) 2)]? = some old ∧
        (PinMode mask pin Output m).2.gpioMem[wordOf (SUNXI_GPIO_BASE +
            ((pv >>> 5 : Nat) : Int) * 36 + sal (sar ((pv &&& 31 : Nat) : Int) 3) 2)]? =
          some new ∧
        new.testBit ((pv &&& 31) % 8 * 4) = true ∧
        new.testBit ((pv &&& 31) % 8 * 4 + 1) = false ∧
        new.testBit ((pv &&& 31) % 8 * 4 + 2) = false ∧
        (∀ i, i < 32 → (i < (pv &&& 31) % 8 * 4 ∨ (pv &&& 31) % 8 * 4 + 2 < i) →
          new.testBit i = old.testBit i) ∧
        (old < 2 ^ 32 → new < 2 ^ 32) := by
  obtain ⟨old, hold, hw⟩ := PinMode_valid_rw Output m hv hlen (Or.inr rfl)
  have hlt := (List.getElem?_eq_some_iff.mp hold).1
  have ho : (pv &&& 31) % 8 * 4 + 2 < 32 := by omega
  rw [modeWordIdx _ _ (validPin_bank hv) (and_31_lt pv), hw]
  refine ⟨rfl, by simp, ?_, old, modeWord Output old ((pv &&& 31) % 8 * 4), hold, ?_, ?_, ?_,
    ?_, ?_, ?_⟩
  · intro j hj
    simp [List.getElem?_set_ne (Ne.symm hj)]
  · simp [List.getElem?_set_self, hlt]
  · rw [testBit_modeWord _ _ _ _ (by omega)]
    simp [Output_ne_Input]
  · rw [testBit_modeWord _ _ _ _ (by omega)]
    simp
  · rw [testBit_modeWord _ _ _ _ (by omega)]
    simp
  · intro i hi hout
    rw [testBit_modeWord _ _ _ _ hi]
    have : ¬ ((pv &&& 31) % 8 * 4 ≤ i ∧ i ≤ (pv &&& 31) % 8 * 4 + 2) := by omega
    simp only [this, if_false]
  · exact modeWord_lt _ _ _

theorem PinMode_output_field_witness :
    ValidPin openMask 6 1 ∧ zeroMachine.gpioMem.length = GPIO_WORDS ∧
      wordOf (SUNXI_GPIO_BASE + ((1 >>> 5 : Nat) : Int) * 36 +
        sal (sar ((1 &&& 31 : Nat) : Int) 3) 2) = 512 ∧
      (1 &&& 31) % 8 * 4 = 4 ∧
      ∃ old new,
        zeroMachine.gpioMem[wordOf (SUNXI_GPIO_BASE + ((1 >>> 5 : Nat) : Int) * 36 +
            sal (sar ((1 &&& 31 : Nat) : Int) 3) 2)]? = some old ∧
        (PinMode openMask 6 Output zeroMachine).2.gpioMem[wordOf (SUNXI_GPIO_BASE +
            ((1 >>> 5 : Nat) : Int) * 36 + sal (sar ((1 &&& 31 : Nat) : Int) 3) 2)]? =
          some new ∧
        new.testBit ((1 &&& 31) % 8 * 4) = true ∧
        new.testBit ((1 &&& 31) % 8 * 4 + 1) = false ∧
        new.testBit ((1 &&& 31) % 8 * 4 + 2) = false ∧
        (∀ i, i < 32 → (i < (1 &&& 31) % 8 * 4 ∨ (1 &&& 31) % 8 * 4 + 2 < i) →
          new.testBit i = old.testBit i) ∧
        (old < 2 ^ 32 → new < 2 ^ 32) :=
  ⟨validPin_six, zeroMachine_length, by decide, by decide,
    (PinMode_output_field openMask 6 1 zeroMachine validPin_six zeroMachine_length).2.2.2⟩

/-- C7: for a valid mapped pin, `PinMode(pin, Output)` followed by `PinMode(pin, Input)`
both return, and afterwards the three bits `o .. o+2`, `o = (index mod 8) * 4`, of the
pin's mode register word are 0 whatever they were before, every other bit of that word has
the value it had before the two calls, and every other word of register memory is unchanged. -/
theorem PinMode_output_then_input (mask : List (List Int)) (pin : Pin) (pv : Nat)
    (m : Machine) (hv : ValidPin mask pin pv) (hlen : m.gpioMem.length = GPIO_WORDS) :
    (PinMode mask pin Output m).1 = .ok () ∧
      (PinMode mask pin Input (PinMode mask pin Output m).2).1 = .ok () ∧
      (PinMode mask pin Input (PinMode mask pin Output m).2).2.gpioMem.length =
        m.gpioMem.length ∧
      (∀ j, j ≠ wordOf (SUNXI_GPIO_BASE + ((pv >>> 5 : Nat) : Int) * 36 +
            sal (sar ((pv &&& 31 : Nat) : Int) 3) 2) →
        (PinMode mask pin Input (PinMode mask pin Output m).2).2.gpioMem[j]? =
          m.gpioMem[j]?) ∧
      ∃ old new,
        m.gpioMem[wordOf (SUNXI_GPIO_BASE + ((pv >>> 5 : Nat) : Int) * 36 +
            sal (sar ((pv &&& 31 : Nat) : Int) 3) 2)]? = some old ∧
        (PinMode mask pin Input (PinMode mask pin Output m).2).2.gpioMem[
            wordOf (SUNXI_GPIO_BASE + ((pv >>> 5 : Nat) : Int) * 36 +
              sal (sar ((pv &&& 31 : Nat) : Int) 3) 2)]? = some new ∧
        (∀ i, (pv &&& 31) % 8 * 4 ≤ i → i ≤ (pv &&& 31) % 8 * 4 + 2 →
          new.testBit i = false) ∧
        (∀ i, i < 32 → (i < (pv &&& 31) % 8 * 4 ∨ (pv &&& 31) % 8 * 4 + 2 < i) →
          new.testBit i = old.testBit i) := by
  obtain ⟨old, hold, hw⟩ := PinMode_valid_rw Output m hv hlen (Or.inr rfl)
  have hlt := (List.getElem?_eq_some_iff.mp hold).1
  have hlen1 : (PinMode mask pin Output m).2.gpioMem.length = GPIO_WORDS := by
    rw [hw]; simpa using hlen
  obtain ⟨mid, hmid, hw2⟩ := PinMode_valid_rw Input _ hv hlen1 (Or.inl rfl)
  have hmid2 : mid = modeWord Output old ((pv &&& 31) % 8 * 4) := by
    rw [hw] at hmid
    simpa [List.getElem?_set_self, hlt] using hmid.symm
  have ho : (pv &&& 31) % 8 * 4 + 2 < 32 := by omega
  rw [modeWordIdx _ _ (validPin_bank hv) (and_31_lt pv), hw2]
  refine ⟨by rw [hw], rfl, ?_, ?_, old, modeWord Input mid ((pv &&& 31) % 8 * 4), hold, ?_,
    ?_, ?_⟩
  · rw [hw]; simp
  · intro j hj
    rw [hw]
    simp [List.getElem?_set_ne (Ne.symm hj)]
  · rw [hw]; simp [List.getElem?_set_self, hlt]
  · intro i h1 h2
    rw [testBit_modeWord _ _ _ _ (by omega)]
    simp [h1, h2]
  · intro i hi hout
    have : ¬ ((pv &&& 31) % 8 * 4 ≤ i ∧ i ≤ (pv &&& 31) % 8 * 4 + 2) := by omega
    rw [testBit_modeWord _ _ _ _ hi, hmid2, testBit_modeWord _ _ _ _ hi]
    simp only [this, if_false]

theorem PinMode_output_then_input_witness :
    ValidPin openMask 6 1 ∧ zeroMachine.gpioMem.length = GPIO_WORDS ∧
      (PinMode openMask 6 Input (PinMode openMask 6 Output zeroMachine).2).1 = .ok () :=
  ⟨validPin_six, zeroMachine_length,
    (PinMode_output_then_input openMask 6 1 zeroMachine validPin_six zeroMachine_length).2.1⟩

/-- C10: for a valid mapped pin and every mode other than `Input` and `Output` (`Clock`,
`Pwm`, `Spi`, `Alt0` .. `Alt5` and any further value of the `uint8`), `PinMode(pin, mode)`
returns normally and register memory is exactly what it was. -/
theorem PinMode_unimplemented_mode (mask : List (List Int)) (pin : Pin) (pv : Nat)
    (mode : Mode) (m : Machine) (hv : ValidPin mask pin pv)
    (hlen : m.gpioMem.length = GPIO_WORDS) (h1 : mode ≠ Input) (h2 : mode ≠ Output) :
    (PinMode mask pin mode m).1 = .ok () ∧ (PinMode mask pin mode m).2.gpioMem = m.gpioMem := by
  rw [PinMode_valid_other mode m hv hlen h1 h2]
  exact ⟨rfl, rfl⟩

theorem PinMode_unimplemented_mode_witness :
    ValidPin openMask 6 1 ∧ zeroMachine.gpioMem.length = GPIO_WORDS ∧ Clock ≠ Input ∧
      Clock ≠ Output ∧
      ((PinMode openMask 6 Clock zeroMachine).1 = .ok () ∧
        (PinMode openMask 6 Clock zeroMachine).2.gpioMem = zeroMachine.gpioMem) :=
  ⟨validPin_six, zeroMachine_length, by decide, by decide,
    PinMode_unimplemented_mode openMask 6 1 Clock zeroMachine validPin_six zeroMachine_length
      (by decide) (by decide)⟩

theorem sub_index_nat (i : Nat) :
    sal ((i : Int) - (16 : Int) * ((i >>> 4 : Nat) : Int)) 1 = (((i % 16) * 2 : Nat) : Int) := by
  rw [Nat.shiftRight_eq_div_pow]
  simp [sal]
  omega

theorem pullAddr_nat (b i : Nat) (hb : b ≤ 6) (hi : i < 32) :
    toUint32 (SUNXI_GPIO_BASE + (b : Int) * (36 : Int) + (0x1c : Int) +
        ((i >>> 4 : Nat) : Int) * (4 : Int)) =
      0x01C2081C + b * 36 + (i >>> 4) * 4 := by
  rw [Nat.shiftRight_eq_div_pow]
  simp only [toUint32, SUNXI_GPIO_BASE]
  push_cast
  omega

theorem pullSeek (b k : Nat) (hb : b ≤ 6) (hk : k ≤ 1) :
    mmap_seek (0x01C2081C + b * 36 + k * 4) = 519 + 9 * b + k := by
  interval_cases b <;> interval_cases k <;> rfl

theorem shr4_le (i : Nat) (hi : i < 32) : i >>> 4 ≤ 1 := by
  rw [Nat.shiftRight_eq_div_pow]; omega

theorem pullWordIdx (b i : Nat) (hb : b ≤ 6) (hi : i < 32) :
    wordOf (SUNXI_GPIO_BASE + (b : Int) * 36 + 0x1c + sar (i : Int) 4 * 4) =
      519 + 9 * b + i >>> 4 := by
  rw [wordOf, sar_nat, pullAddr_nat b i hb hi, pullSeek b _ hb (shr4_le i hi)]

theorem PullMode_valid {mask : List (List Int)} {pin pv : Nat} (pull : Pull) (m : Machine)
    (hv : ValidPin mask pin pv) (hlen : m.gpioMem.length = GPIO_WORDS) :
    ∃ old, m.gpioMem[519 + 9 * (pv >>> 5) + (pv &&& 31) >>> 4]? = some old ∧
      PullMode mask pin pull m =
        (.ok (),
          { gpioMem := m.gpioMem.set (519 + 9 * (pv >>> 5) + (pv &&& 31) >>> 4)
              (pullWord pull old ((pv &&& 31) % 16 * 2)),
            events := m.events ++
              [.maskLookup ((pv >>> 5 : Nat) : Int) ((pv &&& 31 : Nat) : Int),
               .read (519 + 9 * (pv >>> 5) + (pv &&& 31) >>> 4),
               .write (519 + 9 * (pv >>> 5) + (pv &&& 31) >>> 4)
                 (pullWord pull old ((pv &&& 31) % 16 * 2))] }) := by
  obtain ⟨hp, v, hmask, hvne⟩ := hv
  have hpv := PinToGpio_le hp
  have hb := bank_le hpv
  have hi := and_31_lt pv
  have hk := shr4_le _ hi
  have hpin : ¬ pin > MAX_PIN_COUNT := by have := PinToGpio_lt hp; omega
  have hlt : 519 + 9 * (pv >>> 5) + (pv &&& 31) >>> 4 < m.gpioMem.length := by
    rw [hlen]; simp only [GPIO_WORDS, BLOCK_SIZE]; omega
  refine ⟨m.gpioMem[519 + 9 * (pv >>> 5) + (pv &&& 31) >>> 4], List.getElem?_eq_getElem hlt, ?_⟩
  have hsent : ¬ (-1 : Int) = (pv : Int) := by omega
  simp only [PullMode, hpin, if_false, hp, hsent, sar_nat, index_nat, sub_index_nat, hmask,
    hvne, pullAddr_nat _ _ hb hi, readl, writel, pullSeek _ _ hb hk, emit,
    List.getElem?_eq_getElem hlt, List.length_set, hlt, if_true, pullWord, pullCode,
    List.append_assoc, List.singleton_append, List.cons_append, List.nil_append]

theorem testBit_pullWord (pull : Pull) (old off i : Nat) (hi : i < 32) :
    (pullWord pull old off).testBit i =
      if off ≤ i ∧ i ≤ off + 1 then (pullCode pull).testBit (i - off) else old.testBit i := by
  have hc : ∀ j, 2 ≤ j → (pullCode pull).testBit j = false := by
    intro j hj
    apply Nat.testBit_lt_two_pow
    have h4 : pullCode pull < 2 ^ 2 := by
      unfold pullCode
      exact Nat.lt_of_le_of_lt Nat.and_le_right (by norm_num)
    exact Nat.lt_of_lt_of_le h4 (Nat.pow_le_pow_right (by norm_num) hj)
  unfold pullWord
  simp only [Nat.testBit_and, Nat.testBit_or, testBit_not32 _ _ hi, testBit_shl32 _ _ _ hi,
    testBit_three]
  by_cases hr : off ≤ i ∧ i ≤ off + 1
  · have h3 : i - off < 2 := by omega
    simp [hr, h3]
  · simp only [hr, if_false]
    by_cases h1 : off ≤ i
    · have h3 : ¬ i - off < 2 := by omega
      simp [h1, h3, hc (i - off) (by omega)]
    · simp [h1]

theorem pullCode_lt (pull : Pull) : pullCode pull < 2 ^ 2 := by
  unfold pullCode
  exact Nat.lt_of_le_of_lt Nat.and_le_right (by norm_num)

theorem pullWord_field (pull : Pull) (old off : Nat) (hoff : off + 1 < 32) :
    (pullWord pull old off >>> off) % 4 = pullCode pull := by
  apply Nat.eq_of_testBit_eq
  intro i
  show ((pullWord pull old off >>> off) % 2 ^ 2).testBit i = _
  rw [Nat.testBit_mod_two_pow, Nat.testBit_shiftRight]
  by_cases hi : i < 2
  · rw [testBit_pullWord _ _ _ _ (by omega)]
    have : off ≤ off + i ∧ off + i ≤ off + 1 := by omega
    simp [hi, this]
  · have : (pullCode pull).testBit i = false := by
      apply Nat.testBit_lt_two_pow
      exact Nat.lt_of_lt_of_le (pullCode_lt pull) (Nat.pow_le_pow_right (by norm_num) (by omega))
    simp [hi, this]

theorem pullWord_lt (pull : Pull) (old off : Nat) (h : old < 2 ^ 32) :
    pullWord pull old off < 2 ^ 32 := by
  unfold pullWord
  exact Nat.or_lt_two_pow (Nat.lt_of_le_of_lt Nat.and_le_left h) (Nat.mod_lt _ (by norm_num))

/-- C8: for a valid mapped pin with physical id `pv` (bank `pv >> 5`, index `pv & 31`), the
pull register at `SUNXI_GPIO_BASE + bank*36 + 0x1C + (index >> 4)*4` is word
`519 + 9*bank + (index >> 4)` of the GPIO window, and `PullMode(pin, pull)` returns, keeps
the length of register memory, leaves every word other than that one as it was, and in that
word the 2-bit field at bit `2*(index mod 16)` becomes 1 for `PullDown`, 3 for `PullUp` and
for `PullOff`, 0 for `PullNone`, while the 30 other bits keep their old value; a 32-bit old
word gives a 32-bit new word. -/
theorem PullMode_encoding (mask : List (List Int)) (pin : Pin) (pv : Nat) (pull : Pull)
    (code : Nat) (m : Machine) (hv : ValidPin mask pin pv)
    (hlen : m.gpioMem.length = GPIO_WORDS)
    (hc : (pull = PullDown ∧ code = 1) ∨ (pull = PullUp ∧ code = 3) ∨
      (pull = PullOff ∧ code = 3) ∨ (pull = PullNone ∧ code = 0)) :
    wordOf (SUNXI_GPIO_BASE + ((pv >>> 5 : Nat) : Int) * 36 + 0x1c +
          sar ((pv &&& 31 : Nat) : Int) 4 * 4) =
        519 + 9 * (pv >>> 5) + (pv &&& 31) >>> 4 ∧
      (PullMode mask pin pull m).1 = .ok () ∧
      (PullMode mask pin pull m).2.gpioMem.length = m.gpioMem.length ∧
      (∀ j, j ≠ wordOf (SUNXI_GPIO_BASE + ((pv >>> 5 : Nat) : Int) * 36 + 0x1c +
            sar ((pv &&& 31 : Nat) : Int) 4 * 4) →
        (PullMode mask pin pull m).2.gpioMem[j]? = m.gpioMem[j]?) ∧
      ∃ old new,
        m.gpioMem[wordOf (SUNXI_GPIO_BASE + ((pv >>> 5 : Nat) : Int) * 36 + 0x1c +
            sar ((pv &&& 31 : Nat) : Int) 4 * 4)]? = some old ∧
        (PullMode mask pin pull m).2.gpioMem[wordOf (SUNXI_GPIO_BASE +
            ((pv >>> 5 : Nat) : Int) * 36 + 0x1c + sar ((pv &&& 31 : Nat) : Int) 4 * 4)]? =
          some new ∧
        (new >>> (2 * ((pv &&& 31) % 16))) % 4 = code ∧
        (∀ i, i < 32 → (i < 2 * ((pv &&& 31) % 16) ∨ 2 * ((pv &&& 31) % 16) + 1 < i) →
          new.testBit i = old.testBit i) ∧
        (old < 2 ^ 32 → new < 2 ^ 32) := by
  have hcode : code = pullCode pull := by
    rcases hc with ⟨h1, h2⟩ | ⟨h1, h2⟩ | ⟨h1, h2⟩ | ⟨h1, h2⟩ <;> subst h1 <;> subst h2 <;> decide
  obtain ⟨old, hold, hw⟩ := PullMode_valid pull m hv hlen
  have hlt := (List.getElem?_eq_some_iff.mp hold).1
  have ho : (pv &&& 31) % 16 * 2 + 1 < 32 := by omega
  rw [pullWordIdx _ _ (validPin_bank hv) (and_31_lt pv), hw, Nat.mul_comm 2, hcode]
  refine ⟨rfl, rfl, by simp, ?_, old, pullWord pull old ((pv &&& 31) % 16 * 2), hold, ?_, ?_,
    ?_, ?_⟩
  · intro j hj
    simp [List.getElem?_set_ne (Ne.symm hj)]
  · simp [List.getElem?_set_self, hlt]
  · exact pullWord_field pull old _ ho
  · intro i hi hout
    have : ¬ ((pv &&& 31) % 16 * 2 ≤ i ∧ i ≤ (pv &&& 31) % 16 * 2 + 1) := by omega
    rw [testBit_pullWord _ _ _ _ hi]
    simp only [this, if_false]
  · exact pullWord_lt _ _ _

theorem PullMode_encoding_witness :
    ValidPin openMask 6 1 ∧ zeroMachine.gpioMem.length = GPIO_WORDS ∧
      ((PullDown = PullDown ∧ 1 = 1) ∨ (PullDown = PullUp ∧ 1 = 3) ∨
        (PullDown = PullOff ∧ 1 = 3) ∨ (PullDown = PullNone ∧ 1 = 0)) ∧
      wordOf (SUNXI_GPIO_BASE + ((1 >>> 5 : Nat) : Int) * 36 + 0x1c +
          sar ((1 &&& 31 : Nat) : Int) 4 * 4) = 519 ∧
      (PullMode openMask 6 PullDown zeroMachine).1 = .ok () ∧
      (∀ j, j ≠ 519 →
        (PullMode openMask 6 PullDown zeroMachine).2.gpioMem[j]? = zeroMachine.gpioMem[j]?) ∧
      ∃ new,
        (PullMode openMask 6 PullDown zeroMachine).2.gpioMem[519]? = some new ∧
          (new >>> 2) % 4 = 1 ∧ ∀ i, i < 32 → (i < 2 ∨ 3 < i) → new.testBit i = false := by
  obtain ⟨hidx, hok, _, hframe, old, new, hold, hnew, hfield, hrest, _⟩ :=
    PullMode_encoding openMask 6 1 PullDown 1 zeroMachine validPin_six zeroMachine_length
      (Or.inl ⟨rfl, rfl⟩)
  have h519 : 519 + 9 * (1 >>> 5) + (1 &&& 31) >>> 4 = 519 := by decide
  have h2 : 2 * ((1 &&& 31) % 16) = 2 := by decide
  rw [h519] at hidx
  rw [hidx] at hframe hold hnew
  rw [h2] at hfield hrest
  have hold0 : old = 0 :=
    Option.some.inj (hold.symm.trans (zeroMachine_getElem? 519 (by decide)))
  subst hold0
  refine ⟨validPin_six, zeroMachine_length, Or.inl ⟨rfl, rfl⟩, hidx, hok, hframe, new, hnew,
    hfield, ?_⟩
  intro i hi hout
  rw [hrest i hi hout]
  exact Nat.zero_testBit i

/-- C9: when the pin-map entry `pv` of a pin is not the sentinel but the validity mask holds
`-1` at `[pv >> 5][pv & 31]`, each of `PinMode`, `WritePin`, `ReadPin`, `PullMode` and
`TogglePin` ends in the `BP_PIN_MASK` panic; the machine at the panic is the one before the
call with the mask lookup as its only new event: register memory is untouched, and no lock,
read or write was issued. -/
theorem invalid_mask_panics_before_access (mask : List (List Int)) (pin : Pin) (pv : Nat)
    (mode : Mode) (state : State) (pull : Pull) (m : Machine)
    (hp : PinToGpio pin = some (pv : Int))
    (hm : maskAt mask ((pv >>> 5 : Nat) : Int) ((pv &&& 31 : Nat) : Int) = some (-1)) :
    PinMode mask pin mode m =
        (.error (.pinMaskError pin),
          { gpioMem := m.gpioMem,
            events := m.events ++
              [.maskLookup ((pv >>> 5 : Nat) : Int) ((pv &&& 31 : Nat) : Int)] }) ∧
      WritePin mask pin state m =
        (.error (.pinMaskError pin),
          { gpioMem := m.gpioMem,
            events := m.events ++
              [.maskLookup ((pv >>> 5 : Nat) : Int) ((pv &&& 31 : Nat) : Int)] }) ∧
      ReadPin mask pin m =
        (.error (.pinMaskError pin),
          { gpioMem := m.gpioMem,
            events := m.events ++
              [.maskLookup ((pv >>> 5 : Nat) : Int) ((pv &&& 31 : Nat) : Int)] }) ∧
      PullMode mask pin pull m =
        (.error (.pinMaskError pin),
          { gpioMem := m.gpioMem,
            events := m.events ++
              [.maskLookup ((pv >>> 5 : Nat) : Int) ((pv &&& 31 : Nat) : Int)] }) ∧
      TogglePin mask pin m =
        (.error (.pinMaskError pin),
          { gpioMem := m.gpioMem,
            events := m.events ++
              [.maskLookup ((pv >>> 5 : Nat) : Int) ((pv &&& 31 : Nat) : Int)] }) := by
  have hpin : ¬ pin > MAX_PIN_COUNT := Nat.lt_asymm (PinToGpio_lt hp)
  have hsent : ¬ (-1 : Int) = (pv : Int) := by omega
  have hr : ReadPin mask pin m =
      (.error (.pinMaskError pin),
        { gpioMem := m.gpioMem,
          events := m.events ++
            [.maskLookup ((pv >>> 5 : Nat) : Int) ((pv &&& 31 : Nat) : Int)] }) := by
    simp only [ReadPin, hpin, if_false, hp, hsent, sar_nat, index_nat, hm, emit, if_true]
  refine ⟨?_, ?_, hr, ?_, ?_⟩
  · simp only [PinMode, hpin, if_false, hp, hsent, sar_nat, index_nat, hm, emit, if_true]
  · simp only [WritePin, hpin, if_false, hp, hsent, sar_nat, index_nat, hm, emit, if_true]
  · simp only [PullMode, hpin, if_false, hp, hsent, sar_nat, index_nat, hm, emit, if_true]
  · simp only [TogglePin, hr]

theorem invalid_mask_panics_before_access_witness :
    PinToGpio 6 = some ((1 : Nat) : Int) ∧
      maskAt closedMask ((1 >>> 5 : Nat) : Int) ((1 &&& 31 : Nat) : Int) = some (-1) ∧
      WritePin closedMask 6 High zeroMachine =
        (.error (.pinMaskError 6),
          { gpioMem := zeroMachine.gpioMem,
            events := zeroMachine.events ++
              [.maskLookup ((1 >>> 5 : Nat) : Int) ((1 &&& 31 : Nat) : Int)] }) :=
  ⟨rfl, by decide,
    (invalid_mask_panics_before_access closedMask 6 1 Input High PullOff zeroMachine rfl
      (by decide)).2.1⟩

/-- C4 (the case the code gets wrong): at `pin = MAX_PIN_COUNT` the guard
`pin > driver.MAX_PIN_COUNT` lets the pin through and `pintoGpio[pin]` is out of range, so
each of `PinMode`, `WritePin`, `ReadPin`, `PullMode` and `TogglePin` ends in Go's
index-out-of-range panic instead of returning. -/
theorem pin_MAX_PIN_COUNT_panics (mask : List (List Int)) (mode : Mode) (state : State)
    (pull : Pull) (m : Machine) :
    PinMode mask MAX_PIN_COUNT mode m = (.error .indexOutOfRange, m) ∧
      WritePin mask MAX_PIN_COUNT state m = (.error .indexOutOfRange, m) ∧
      ReadPin mask MAX_PIN_COUNT m = (.error .indexOutOfRange, m) ∧
      PullMode mask MAX_PIN_COUNT pull m = (.error .indexOutOfRange, m) ∧
      TogglePin mask MAX_PIN_COUNT m = (.error .indexOutOfRange, m) := by
  have hpin : ¬ MAX_PIN_COUNT > MAX_PIN_COUNT := Nat.lt_irrefl _
  have hp : PinToGpio MAX_PIN_COUNT = none := by decide
  have hr : ReadPin mask MAX_PIN_COUNT m = (.error .indexOutOfRange, m) := by
    simp only [ReadPin, hpin, if_false, hp]
  refine ⟨?_, ?_, hr, ?_, ?_⟩
  · simp only [PinMode, hpin, if_false, hp]
  · simp only [WritePin, hpin, if_false, hp]
  · simp only [PullMode, hpin, if_false, hp]
  · simp only [TogglePin, hr]

/-- Pins strictly above `MAX_PIN_COUNT` are ignored by every operation. -/
theorem pin_above_MAX_PIN_COUNT_ignored (mask : List (List Int)) (pin : Pin) (mode : Mode)
    (state : State) (pull : Pull) (m : Machine) (h : pin > MAX_PIN_COUNT) :
    PinMode mask pin mode m = (.ok (), m) ∧
      WritePin mask pin state m = (.ok (), m) ∧
      ReadPin mask pin m = (.ok Low, m) ∧
      PullMode mask pin pull m = (.ok (), m) ∧
      TogglePin mask pin m = (.ok (), m) := by
  have hr : ReadPin mask pin m = (.ok Low, m) := by simp only [ReadPin, h, if_true]
  have hw : ∀ s, WritePin mask pin s m = (.ok (), m) := by
    intro s; simp only [WritePin, h, if_true]
  refine ⟨?_, hw state, hr, ?_, ?_⟩
  · simp only [PinMode, h, if_true]
  · simp only [PullMode, h, if_true]
  · simp only [TogglePin, hr, if_true, hw]

/-- C5: for a logical pin whose pin-map entry is the sentinel `-1`, `PinMode`, `WritePin`,
`PullMode` and `TogglePin` return normally and `ReadPin` returns `Low`, and the machine is
exactly the one before the call: register memory is unchanged and no event was issued, so
the validity mask was not consulted and no register word was read or written. -/
theorem unmapped_pin_is_noop (mask : List (List Int)) (pin : Pin) (mode : Mode)
    (state : State) (pull : Pull) (m : Machine) (hp : PinToGpio pin = some (-1)) :
    PinMode mask pin mode m = (.ok (), m) ∧
      WritePin mask pin state m = (.ok (), m) ∧
      ReadPin mask pin m = (.ok Low, m) ∧
      PullMode mask pin pull m = (.ok (), m) ∧
      TogglePin mask pin m = (.ok (), m) := by
  have hpin : ¬ pin > MAX_PIN_COUNT := Nat.lt_asymm (PinToGpio_lt hp)
  have hr : ReadPin mask pin m = (.ok Low, m) := by
    simp only [ReadPin, hpin, if_false, hp, if_true]
  have hw : ∀ s, WritePin mask pin s m = (.ok (), m) := by
    intro s; simp only [WritePin, hpin, if_false, hp, if_true]
  refine ⟨?_, hw state, hr, ?_, ?_⟩
  · simp only [PinMode, hpin, if_false, hp, if_true]
  · simp only [PullMode, hpin, if_false, hp, if_true]
  · simp only [TogglePin, hr, if_true, hw]

theorem unmapped_pin_is_noop_witness :
    PinToGpio 17 = some (-1) ∧
      (PinMode openMask 17 Output zeroMachine = (.ok (), zeroMachine) ∧
        WritePin openMask 17 High zeroMachine = (.ok (), zeroMachine) ∧
        ReadPin openMask 17 zeroMachine = (.ok Low, zeroMachine) ∧
        PullMode openMask 17 PullUp zeroMachine = (.ok (), zeroMachine) ∧
        TogglePin openMask 17 zeroMachine = (.ok (), zeroMachine)) :=
  ⟨rfl, unmapped_pin_is_noop openMask 17 Output High PullUp zeroMachine rfl⟩

theorem and_not32_idem (x n : Nat) : (x &&& n) &&& n = x &&& n := by
  rw [Nat.and_assoc, Nat.and_self]

/-- C11: for every validity mask, every logical pin (mapped or not, in range or not) and
every register memory, the register memory after two calls of `PinMode(pin, Input)` in a
row is the register memory after the first call. -/
theorem PinMode_input_idempotent (mask : List (List Int)) (pin : Pin) (m : Machine) :
    (PinMode mask pin Input (PinMode mask pin Input m).2).2.gpioMem =
      (PinMode mask pin Input m).2.gpioMem := by
  unfold PinMode
  by_cases hpin : pin > MAX_PIN_COUNT
  · simp only [hpin, if_true]
  · simp only [hpin, if_false]
    cases hp : PinToGpio pin with
    | none => simp only []
    | some pv =>
      by_cases hs : (-1 : Int) = pv
      · simp only [hs, if_true]
      · simp only [hs, if_false]
        cases hm : maskAt mask (sar pv 5) (pv - sal (sar pv 5) 5) with
        | none => simp only []
        | some v =>
          by_cases hv : v = -1
          · simp only [hv, if_true, emit]
          · simp only [hv, if_false, emit, readl, writel, if_true]
            generalize mmap_seek (toUint32 (SUNXI_GPIO_BASE + sar pv 5 * 36 +
              sal (sar (pv - sal (sar pv 5) 5) 3) 2)) = s
            generalize not32 (shl32 7 (sal (pv - sal (sar pv 5) 5 -
              sal (sar (pv - sal (sar pv 5) 5) 3) 3) 2)) = n
            cases hg : m.gpioMem[s]? with
            | none => simp only [hg]
            | some old =>
              have hlt : s < m.gpioMem.length := (List.getElem?_eq_some_iff.mp hg).1
              simp only [hlt, if_true, List.getElem?_set_self hlt, List.length_set,
                and_not32_idem, List.set_set]

theorem sentinel_pin_noop (mask : List (List Int)) (pin : Pin) (mode : Mode)
    (state : State) (pull : Pull) (m : Machine) (hp : PinToGpio pin = some (-1)) :
    PinMode mask pin mode m = (.ok (), m) ∧
      WritePin mask pin state m = (.ok (), m) ∧
      ReadPin mask pin m = (.ok Low, m) ∧
      PullMode mask pin pull m = (.ok (), m) ∧
      TogglePin mask pin m = (.ok (), m) := by
  have hpin : ¬ pin > MAX_PIN_COUNT := Nat.lt_asymm (PinToGpio_lt hp)
  have hr : ReadPin mask pin m = (.ok Low, m) := by
    simp only [ReadPin, hpin, if_false, hp, if_true]
  have hw : ∀ s, WritePin mask pin s m = (.ok (), m) := by
    intro s; simp only [WritePin, hpin, if_false, hp, if_true]
  refine ⟨?_, hw state, hr, ?_, ?_⟩
  · simp only [PinMode, hpin, if_false, hp, if_true]
  · simp only [PullMode, hpin, if_false, hp, if_true]
  · simp only [TogglePin, hr, if_true, hw]

theorem validPin_sixteen : ValidPin openMask 16 199 := ⟨rfl, 0, rfl, by decide⟩

/-- C12 as stated fails: the pin-map table resolves logical pin 16 to physical id 199, not
to the sentinel, and with a validity table that accepts it `WritePin(16, High)` on the
all-zero register memory issues a lock, a read, a write and an unlock and changes word 570
(the data register of bank 6) from 0 to 128. -/
theorem pin_16_is_mapped :
    PinToGpio 16 = some 199 ∧ PinToGpio 16 ≠ some (-1) ∧
      zeroMachine.gpioMem[570]? = some 0 ∧
      (WritePin openMask 16 High zeroMachine).2.gpioMem[570]? = some 128 ∧
      (WritePin openMask 16 High zeroMachine).2.gpioMem ≠ zeroMachine.gpioMem ∧
      (WritePin openMask 16 High zeroMachine).2.events =
        [.maskLookup 6 7, .lock, .read 570, .write 570 128, .unlock] := by
  obtain ⟨old, hold, hw⟩ := WritePin_valid High zeroMachine validPin_sixteen zeroMachine_length
  have h570 : zeroMachine.gpioMem[570]? = some 0 :=
    zeroMachine_getElem? 570 (by decide)
  have hold0 : old = 0 := by
    have h1 : 516 + 9 * (199 >>> 5) = 570 := by decide
    rw [h1] at hold
    exact Option.some.inj (hold.symm.trans h570)
  subst hold0
  have h1 : 516 + 9 * (199 >>> 5) = 570 := by decide
  have h2 : writeWord High 0 (199 &&& 31) = 128 := by decide
  have h3 : ((199 >>> 5 : Nat) : Int) = 6 := by decide
  have h4 : ((199 &&& 31 : Nat) : Int) = 7 := by decide
  have hlt : 570 < zeroMachine.gpioMem.length := by rw [zeroMachine_length]; decide
  rw [h1, h2, h3, h4] at hw
  have hnew : (WritePin openMask 16 High zeroMachine).2.gpioMem[570]? = some 128 := by
    rw [hw]; simp only [List.getElem?_set_self hlt]
  refine ⟨rfl, by decide, h570, hnew, ?_, ?_⟩
  · intro heq
    rw [heq, h570] at hnew
    exact absurd (Option.some.inj hnew) (by decide)
  · rw [hw]; simp [zeroMachine]

/-- C12 amended: logical pin 17 (pin 16 resolves to physical id 199) is unmapped on this
board: the pin-map table resolves it to the sentinel `-1`, so for every validity mask and
every register memory `PinMode`, `WritePin`, `PullMode` and `TogglePin` on pin 17 return
with the machine unchanged and `ReadPin(17)` returns `Low` with the machine unchanged:
register memory is as before and no register read or write (no event at all) is issued. -/
theorem pin_17_is_unmapped (mask : List (List Int)) (mode : Mode) (state : State)
    (pull : Pull) (m : Machine) :
    PinToGpio 17 = some (-1) ∧
      PinMode mask 17 mode m = (.ok (), m) ∧
      WritePin mask 17 state m = (.ok (), m) ∧
      ReadPin mask 17 m = (.ok Low, m) ∧
      PullMode mask 17 pull m = (.ok (), m) ∧
      TogglePin mask 17 m = (.ok (), m) :=
  ⟨rfl, sentinel_pin_noop mask 17 mode state pull m rfl⟩

theorem emitted_append (m : Machine) (g : List Nat) (es : List Event) :
    emitted m { gpioMem := g, events := m.events ++ es } = es := by
  simp [emitted]

/-- The lock discipline holds for `PinMode` and `WritePin` on a valid mapped pin: the
register read and the register write of the call lie between its `Lock` and `Unlock`. -/
theorem PinMode_WritePin_under_lock (mask : List (List Int)) (pin : Pin) (pv : Nat)
    (mode : Mode) (state : State) (m : Machine) (hv : ValidPin mask pin pv)
    (hlen : m.gpioMem.length = GPIO_WORDS) :
    underLock false (emitted m (PinMode mask pin mode m).2) = true ∧
      underLock false (emitted m (WritePin mask pin state m).2) = true := by
  constructor
  · by_cases h : mode = Input ∨ mode = Output
    · obtain ⟨old, _, hw⟩ := PinMode_valid_rw mode m hv hlen h
      rw [hw, emitted_append]; rfl
    · have h1 : mode ≠ Input := fun e => h (Or.inl e)
      have h2 : mode ≠ Output := fun e => h (Or.inr e)
      rw [PinMode_valid_other mode m hv hlen h1 h2, emitted_append]; rfl
  · obtain ⟨old, _, hw⟩ := WritePin_valid state m hv hlen
    rw [hw, emitted_append]; rfl

/-- C13 (the operation the code gets wrong): `PullMode` never takes `memlock`. On the
all-zero register memory with a validity table accepting the pin, `PullMode(6, PullDown)`
returns having issued a mask lookup, a read of word 519 and a write of 4 to word 519, with
no `Lock` or `Unlock`: its read-modify-write happens outside any locked section. -/
theorem PullMode_accesses_without_lock :
    (PullMode openMask 6 PullDown zeroMachine).1 = .ok () ∧
      emitted zeroMachine (PullMode openMask 6 PullDown zeroMachine).2 =
        [.maskLookup 0 1, .read 519, .write 519 4] ∧
      underLock false (emitted zeroMachine (PullMode openMask 6 PullDown zeroMachine).2) =
        false := by
  obtain ⟨old, hold, hw⟩ := PullMode_valid PullDown zeroMachine validPin_six zeroMachine_length
  have h1 : 519 + 9 * (1 >>> 5) + (1 &&& 31) >>> 4 = 519 := by decide
  have hold0 : old = 0 := by
    rw [h1] at hold
    exact Option.some.inj (hold.symm.trans (zeroMachine_getElem? 519 (by decide)))
  subst hold0
  have h2 : pullWord PullDown 0 ((1 &&& 31) % 16 * 2) = 4 := by decide
  have h3 : ((1 >>> 5 : Nat) : Int) = 0 := by decide
  have h4 : ((1 &&& 31 : Nat) : Int) = 1 := by decide
  rw [h1, h2, h3, h4] at hw
  rw [hw, emitted_append]
  exact ⟨rfl, rfl, rfl⟩

theorem PinMode_WritePin_under_lock_example :
    ValidPin openMask 6 1 ∧ zeroMachine.gpioMem.length = GPIO_WORDS ∧
      underLock false (emitted zeroMachine (WritePin openMask 6 High zeroMachine).2) = true :=
  ⟨validPin_six, zeroMachine_length,
    (PinMode_WritePin_under_lock openMask 6 1 Output High zeroMachine validPin_six
      zeroMachine_length).2⟩

theorem window_word (b r : Nat) (hb : b ≤ 8) (hr : r ≤ 8) :
    (0x01C20800 + b * 36 + r * 4) &&& not32 MAP_MASK = GPIO_BASE_BP ∧
      (0x01C20800 + b * 36 + r * 4) % 4 = 0 ∧
      mmap_seek (0x01C20800 + b * 36 + r * 4) =
        (0x01C20800 + b * 36 + r * 4 - GPIO_BASE_BP) / 4 ∧
      mmap_seek (0x01C20800 + b * 36 + r * 4) = 512 + 9 * b + r ∧
      mmap_seek (0x01C20800 + b * 36 + r * 4) < GPIO_WORDS := by
  interval_cases b <;> interval_cases r <;> decide

theorem modeAddr_eq (b i : Nat) (hb : b ≤ 8) (hi : i < 32) :
    toUint32 (SUNXI_GPIO_BASE + (b : Int) * (36 : Int) + sal (sar (i : Int) 3) 2) =
      0x01C20800 + b * 36 + (i >>> 3) * 4 := by
  rw [sar_nat, Nat.shiftRight_eq_div_pow]
  simp only [toUint32, SUNXI_GPIO_BASE, sal]
  push_cast
  omega

theorem dataAddr_eq (b : Nat) (hb : b ≤ 8) :
    toUint32 (SUNXI_GPIO_BASE + (b : Int) * (36 : Int) + (0x10 : Int)) =
      0x01C20800 + b * 36 + 4 * 4 := by
  simp only [toUint32, SUNXI_GPIO_BASE]
  omega

theorem pullAddr_eq (b i : Nat) (hb : b ≤ 8) (hi : i < 32) :
    toUint32 (SUNXI_GPIO_BASE + (b : Int) * (36 : Int) + (0x1c : Int) +
        sar (i : Int) 4 * (4 : Int)) =
      0x01C20800 + b * 36 + (7 + i >>> 4) * 4 := by
  rw [sar_nat, Nat.shiftRight_eq_div_pow]
  simp only [toUint32, SUNXI_GPIO_BASE]
  push_cast
  omega

/-- C14: every non-sentinel physical id of the M1 pin map has its bank `pv >> 5` in `0..8`;
and for every physical id `pv` with bank in `0..8`, each of the mode, data and pull register
addresses the operations compute from it is 4-byte aligned, is mapped by the masking in
`readl`/`writel` to the base `GPIO_BASE_BP`, and gets the word index
`(addr - GPIO_BASE_BP) / 4`, which is below the window's `BLOCK_SIZE*10/4 = 15360` words. -/
theorem register_words_in_window :
    (∀ (pin : Pin) (pv : Nat), PinToGpio pin = some (pv : Int) → pv >>> 5 ≤ 8) ∧
      GPIO_WORDS = 15360 ∧
      ∀ (pv : Nat) (addr : Nat), pv >>> 5 ≤ 8 →
        (addr = toUint32 (SUNXI_GPIO_BASE + sar (pv : Int) 5 * 36 +
            sal (sar ((pv : Int) - sal (sar (pv : Int) 5) 5) 3) 2) ∨
          addr = toUint32 (SUNXI_GPIO_BASE + sar (pv : Int) 5 * 36 + 0x10) ∨
          addr = toUint32 (SUNXI_GPIO_BASE + sar (pv : Int) 5 * 36 + 0x1c +
            sar ((pv : Int) - sal (sar (pv : Int) 5) 5) 4 * 4)) →
        addr &&& not32 MAP_MASK = GPIO_BASE_BP ∧ addr % 4 = 0 ∧
          mmap_seek addr = (addr - GPIO_BASE_BP) / 4 ∧ mmap_seek addr < GPIO_WORDS := by
  refine ⟨?_, by decide, ?_⟩
  · intro pin pv hp
    have := bank_le (PinToGpio_le hp)
    omega
  · intro pv addr hb haddr
    have hi := and_31_lt pv
    have h3 := shr3_le _ hi
    have h4 := shr4_le _ hi
    rw [sar_nat, index_nat] at haddr
    rcases haddr with h | h | h
    · rw [h, modeAddr_eq _ _ hb hi]
      obtain ⟨a, b, c, _, e⟩ := window_word (pv >>> 5) ((pv &&& 31) >>> 3) hb (by omega)
      exact ⟨a, b, c, e⟩
    · rw [h, dataAddr_eq _ hb]
      obtain ⟨a, b, c, _, e⟩ := window_word (pv >>> 5) 4 hb (by omega)
      exact ⟨a, b, c, e⟩
    · rw [h, pullAddr_eq _ _ hb hi]
      obtain ⟨a, b, c, _, e⟩ := window_word (pv >>> 5) (7 + (pv &&& 31) >>> 4) hb (by omega)
      exact ⟨a, b, c, e⟩

theorem register_words_in_window_witness :
    PinToGpio 7 = some ((203 : Nat) : Int) ∧ 203 >>> 5 ≤ 8 ∧
      mmap_seek (toUint32 (SUNXI_GPIO_BASE + sar ((203 : Nat) : Int) 5 * 36 + 0x10)) <
        GPIO_WORDS :=
  ⟨rfl, by decide,
    (register_words_in_window.2.2 203 _ (by decide) (Or.inr (Or.inl rfl))).2.2.2⟩

/-- C15: for every non-negative physical id `pv`, the bank the code computes is `pv >> 5`,
the index `pv - ((pv >> 5) << 5)` equals `pv & 31` and lies in `0..31`,
`pv = 32*bank + index`, the mode-field bit offset `(index - ((index >> 3) << 3)) << 2`
equals `(index mod 8) * 4`, and the pull sub-index `index - 16*(index >> 4)` equals
`index mod 16`. -/
theorem bank_index_decomposition (pv : Nat) :
    sar (pv : Int) 5 = ((pv >>> 5 : Nat) : Int) ∧
      (pv : Int) - sal (sar (pv : Int) 5) 5 = ((pv &&& 31 : Nat) : Int) ∧
      pv &&& 31 ≤ 31 ∧
      pv = 32 * (pv >>> 5) + (pv &&& 31) ∧
      sal (((pv : Int) - sal (sar (pv : Int) 5) 5) -
          sal (sar ((pv : Int) - sal (sar (pv : Int) 5) 5) 3) 3) 2 =
        (((pv &&& 31) % 8 * 4 : Nat) : Int) ∧
      ((pv : Int) - sal (sar (pv : Int) 5) 5) -
          16 * sar ((pv : Int) - sal (sar (pv : Int) 5) 5) 4 =
        (((pv &&& 31) % 16 : Nat) : Int) := by
  have hi := and_31_lt pv
  refine ⟨sar_nat pv 5, ?_, by omega, ?_, ?_, ?_⟩
  · rw [sar_nat, index_nat]
  · rw [and_31, Nat.shiftRight_eq_div_pow]; omega
  · rw [sar_nat, index_nat, sar_nat, offset_nat]
  · rw [sar_nat, index_nat, sar_nat, Nat.shiftRight_eq_div_pow]
    push_cast
    omega

set_option maxRecDepth 100000 in
theorem pintoGpio_injective_aux :
    ∀ i < 74, ∀ j < 74, pintoGpio[i]? = pintoGpio[j]? →
      pintoGpio[i]? = some (-1) ∨ i = j := by
  decide

theorem PinToGpio_injective {i j : Pin} {pv : Int} (hi : PinToGpio i = some pv)
    (hj : PinToGpio j = some pv) (hs : pv ≠ -1) : i = j := by
  have h1 : i < 74 := PinToGpio_lt hi
  have h2 : j < 74 := PinToGpio_lt hj
  unfold PinToGpio at hi hj
  rcases pintoGpio_injective_aux i h1 j h2 (hi.trans hj.symm) with h | h
  · rw [hi] at h
    exact absurd (Option.some.inj h) hs
  · exact h

theorem pv_split (pv : Nat) : pv = 32 * (pv >>> 5) + (pv &&& 31) := by
  rw [and_31, Nat.shiftRight_eq_div_pow]; omega

theorem validPin_zero : ValidPin openMask 0 0 := ⟨rfl, 0, rfl, by decide⟩

/-- C16: the non-sentinel entries of the M1 pin map are pairwise distinct (two logical pins
with the same non-sentinel physical id are the same pin), and for every register memory,
every two distinct valid mapped pins `p` and `q` and every state `s`, `ReadPin(q)` returns
after `WritePin(p, s)` what it returns before it. -/
theorem pins_do_not_interfere :
    (∀ (i j : Pin) (pv : Int), PinToGpio i = some pv → PinToGpio j = some pv → pv ≠ -1 →
        i = j) ∧
      ∀ (mask : List (List Int)) (p q : Pin) (pvp pvq : Nat) (s : State) (m : Machine),
        ValidPin mask p pvp → ValidPin mask q pvq → p ≠ q →
        m.gpioMem.length = GPIO_WORDS →
        (ReadPin mask q (WritePin mask p s m).2).1 = (ReadPin mask q m).1 := by
  refine ⟨fun i j pv hi hj hs => PinToGpio_injective hi hj hs, ?_⟩
  intro mask p q pvp pvq s m hvp hvq hpq hlen
  have hne : pvp ≠ pvq := by
    intro h
    subst h
    exact hpq (PinToGpio_injective hvp.1 hvq.1 (by omega))
  obtain ⟨old, hold, hw⟩ := WritePin_valid s m hvp hlen
  have hlt := (List.getElem?_eq_some_iff.mp hold).1
  have hlen2 : (WritePin mask p s m).2.gpioMem.length = GPIO_WORDS := by
    rw [hw]; simpa using hlen
  obtain ⟨oldq, holdq, hr⟩ := ReadPin_valid m hvq hlen
  obtain ⟨newq, hnewq, hr2⟩ := ReadPin_valid _ hvq hlen2
  rw [hr, hr2]
  rw [hw] at hnewq
  have hbit : newq.testBit (pvq &&& 31) = oldq.testBit (pvq &&& 31) := by
    by_cases hb : pvp >>> 5 = pvq >>> 5
    · have hidx : pvq &&& 31 ≠ pvp &&& 31 := by
        have h1 := pv_split pvp
        have h2 := pv_split pvq
        omega
      rw [hb] at hold hnewq hlt
      have e1 : oldq = old := Option.some.inj (holdq.symm.trans hold)
      have e2 : newq = writeWord s old (pvp &&& 31) := by
        simpa [List.getElem?_set_self, hlt] using hnewq.symm
      rw [e1, e2, testBit_writeWord _ _ _ _ (and_31_lt pvp) (and_31_lt pvq)]
      simp only [hidx, if_false]
    · have hsne : 516 + 9 * (pvp >>> 5) ≠ 516 + 9 * (pvq >>> 5) := by omega
      simp only [List.getElem?_set_ne hsne] at hnewq
      have e1 : newq = oldq := Option.some.inj (hnewq.symm.trans holdq)
      rw [e1]
  simp only [hbit]

theorem pins_do_not_interfere_witness :
    ValidPin openMask 6 1 ∧ ValidPin openMask 0 0 ∧ (6 : Pin) ≠ 0 ∧
      zeroMachine.gpioMem.length = GPIO_WORDS ∧
      (ReadPin openMask 0 (WritePin openMask 6 High zeroMachine).2).1 =
        (ReadPin openMask 0 zeroMachine).1 :=
  ⟨validPin_six, validPin_zero, by decide, zeroMachine_length,
    pins_do_not_interfere.2 openMask 6 0 1 0 High zeroMachine validPin_six validPin_zero
      (by decide) zeroMachine_length⟩

theorem regAddr_eq (b off : Nat) (hb : b ≤ 8) (ho : off ≤ 32) :
    toUint32 (SUNXI_GPIO_BASE + (b : Int) * (36 : Int) + (off : Int)) =
      0x01C20800 + b * 36 + off := by
  simp only [toUint32, SUNXI_GPIO_BASE]
  omega

theorem regWord (b off : Nat) (hb : b ≤ 8) (ho : off ∈ registerOffsets) :
    wordOf (SUNXI_GPIO_BASE + (b : Int) * (36 : Int) + (off : Int)) = 512 + 9 * b + off / 4 := by
  have hr : off ≤ 32 ∧ off = off / 4 * 4 := by
    simp only [registerOffsets, List.mem_cons, List.mem_singleton, List.not_mem_nil,
      or_false] at ho
    omega
  rw [wordOf, regAddr_eq b off hb hr.1]
  have h := (window_word b (off / 4) hb (by omega)).2.2.2.1
  rw [← hr.2] at h
  exact h

theorem registerOffsets_div {off : Nat} (ho : off ∈ registerOffsets) :
    off / 4 ≤ 8 ∧ off = off / 4 * 4 := by
  simp only [registerOffsets, List.mem_cons, List.mem_singleton, List.not_mem_nil,
    or_false] at ho
  omega


theorem PinToGpio_nat {pin : Pin} {pv : Int} (hp : PinToGpio pin = some pv)
    (hs : ¬ (-1 : Int) = pv) : ∃ n : Nat, pv = (n : Int) ∧ n ≤ 203 := by
  have hm : pv ∈ pintoGpio := List.getElem?_mem hp
  rcases pintoGpio_range _ hm with h1 | h1
  · exact absurd h1.symm hs
  · exact ⟨pv.toNat, by omega, by omega⟩

/-- What `ReadPin` returns depends on register memory through the data register words only. -/
theorem ReadPin_congr (mask : List (List Int)) (q : Pin) (m m2 : Machine)
    (h : ∀ b, b ≤ 6 → m2.gpioMem[516 + 9 * b]? = m.gpioMem[516 + 9 * b]?) :
    (ReadPin mask q m2).1 = (ReadPin mask q m).1 := by
  unfold ReadPin
  by_cases hpin : q > MAX_PIN_COUNT
  · simp only [hpin, if_true]
  · simp only [hpin, if_false]
    cases hp : PinToGpio q with
    | none => simp only []
    | some pv =>
      by_cases hs : (-1 : Int) = pv
      · simp only [hs, if_true]
      · obtain ⟨n, hn, hle⟩ := PinToGpio_nat hp hs
        subst hn
        have hb := bank_le hle
        simp only [hs, if_false, sar_nat, index_nat]
        cases hm : maskAt mask ((n >>> 5 : Nat) : Int) ((n &&& 31 : Nat) : Int) with
        | none => simp only []
        | some v =>
          by_cases hv : v = -1
          · simp only [hv, if_true]
          · simp only [hv, if_false, dataAddr_nat _ hb, readl, dataSeek _ hb, emit,
              h _ hb]
            cases m.gpioMem[516 + 9 * (n >>> 5)]? with
            | none => simp only []
            | some old =>
              simp only []
              split <;> rfl

/-- C17: for banks `0..8` the words of the four mode registers (offsets `0x0..0xC`), the
data register (`0x10`) and the two pull registers (`0x1C`, `0x20`), at 36 bytes per bank,
are pairwise distinct across (bank, register) pairs; and for every valid mapped pin `p` and
every register memory, `ReadPin(q)` of every logical pin `q` returns the same after
`PinMode(p, mode)` and after `PullMode(p, pull)` as before, for every mode and pull, and
`WritePin(p, state)` leaves every mode and pull register word of every bank as it was. -/
theorem register_kinds_do_not_overlap :
    (∀ (b b2 off off2 : Nat), b ≤ 8 → b2 ≤ 8 → off ∈ registerOffsets →
        off2 ∈ registerOffsets →
        wordOf (SUNXI_GPIO_BASE + (b : Int) * (36 : Int) + (off : Int)) =
          wordOf (SUNXI_GPIO_BASE + (b2 : Int) * (36 : Int) + (off2 : Int)) →
        b = b2 ∧ off = off2) ∧
      ∀ (mask : List (List Int)) (p : Pin) (pv : Nat) (m : Machine),
        ValidPin mask p pv → m.gpioMem.length = GPIO_WORDS →
        (∀ (mode : Mode) (q : Pin),
            (ReadPin mask q (PinMode mask p mode m).2).1 = (ReadPin mask q m).1) ∧
          (∀ (pull : Pull) (q : Pin),
            (ReadPin mask q (PullMode mask p pull m).2).1 = (ReadPin mask q m).1) ∧
          (∀ (state : State) (b off : Nat), b ≤ 8 →
            off ∈ [0x0, 0x4, 0x8, 0xC, 0x1C, 0x20] →
            (WritePin mask p state m).2.gpioMem[
                wordOf (SUNXI_GPIO_BASE + (b : Int) * (36 : Int) + (off : Int))]? =
              m.gpioMem[wordOf (SUNXI_GPIO_BASE + (b : Int) * (36 : Int) + (off : Int))]?) := by
  refine ⟨?_, ?_⟩
  · intro b b2 off off2 hb hb2 ho ho2 heq
    rw [regWord b off hb ho, regWord b2 off2 hb2 ho2] at heq
    have h1 := registerOffsets_div ho
    have h2 := registerOffsets_div ho2
    omega
  · intro mask p pv m hv hlen
    have hi := and_31_lt pv
    have h3 := shr3_le _ hi
    have h4 := shr4_le _ hi
    refine ⟨?_, ?_, ?_⟩
    · intro mode q
      apply ReadPin_congr
      intro b _
      by_cases h : mode = Input ∨ mode = Output
      · obtain ⟨old, _, hw⟩ := PinMode_valid_rw mode m hv hlen h
        rw [hw]
        exact List.getElem?_set_ne (by omega)
      · have h1 : mode ≠ Input := fun e => h (Or.inl e)
        have h2 : mode ≠ Output := fun e => h (Or.inr e)
        rw [PinMode_valid_other mode m hv hlen h1 h2]
    · intro pull q
      apply ReadPin_congr
      intro b _
      obtain ⟨old, _, hw⟩ := PullMode_valid pull m hv hlen
      rw [hw]
      exact List.getElem?_set_ne (by omega)
    · intro state b off hb ho
      have ho2 : off ∈ registerOffsets ∧ off ≠ 0x10 := by
        simp only [List.mem_cons, List.mem_singleton, List.not_mem_nil, or_false] at ho
        simp only [registerOffsets, List.mem_cons, List.mem_singleton, List.not_mem_nil,
          or_false]
        omega
      obtain ⟨old, _, hw⟩ := WritePin_valid state m hv hlen
      have hd := registerOffsets_div ho2.1
      rw [regWord b off hb ho2.1, hw]
      exact List.getElem?_set_ne (by omega)

theorem register_kinds_do_not_overlap_witness :
    ValidPin openMask 6 1 ∧ zeroMachine.gpioMem.length = GPIO_WORDS ∧
      (ReadPin openMask 0 (PinMode openMask 6 Output zeroMachine).2).1 =
        (ReadPin openMask 0 zeroMachine).1 :=
  ⟨validPin_six, zeroMachine_length,
    (register_kinds_do_not_overlap.2 openMask 6 1 zeroMachine validPin_six
      zeroMachine_length).1 Output 0⟩

theorem set_same {l : List Nat} {s a : Nat} (h : l[s]? = some a) : l.set s a = l := by
  apply List.ext_getElem?
  intro j
  by_cases hj : s = j
  · subst hj
    have hlt := (List.getElem?_eq_some_iff.mp h).1
    rw [List.getElem?_set_self hlt, h]
  · rw [List.getElem?_set_ne hj]

theorem testBit_ge_32 {w : Nat} (hw : w < 2 ^ 32) {i : Nat} (hi : 32 ≤ i) :
    w.testBit i = false :=
  Nat.testBit_lt_two_pow (Nat.lt_of_lt_of_le hw (Nat.pow_le_pow_right (by norm_num) hi))

/-- Writing the opposite of bit `idx`, twice, gives back a 32-bit word. -/
theorem writeWord_flip_flip (old idx : Nat) (hidx : idx < 32) (hold : old < 2 ^ 32) :
    writeWord
        (if (writeWord (if old.testBit idx then Low else High) old idx).testBit idx
          then Low else High)
        (writeWord (if old.testBit idx then Low else High) old idx) idx = old := by
  apply Nat.eq_of_testBit_eq
  intro i
  by_cases hi : i < 32
  · rw [testBit_writeWord _ _ _ _ hidx hi, testBit_writeWord _ _ _ _ hidx hidx,
      testBit_writeWord _ _ _ _ hidx hi]
    by_cases hii : i = idx
    · subst hii
      by_cases hb : old.testBit i = true
      · simp [hb, High_ne_Low]
      · simp [hb, High_ne_Low]
    · simp only [hii, if_false]
  · have h32 : 32 ≤ i := by omega
    rw [testBit_ge_32 hold h32]
    exact testBit_ge_32 (writeWord_lt _ _ _ (writeWord_lt _ _ _ hold)) h32

/-- C18: for every register memory and every logical pin that is unmapped (`-1`) or valid
and mapped, two calls of `TogglePin(pin)` in a row both return and leave the whole register
memory as it was before the first call (for a mapped pin: over a window of `GPIO_WORDS`
words, each a 32-bit value). -/
theorem TogglePin_involution (mask : List (List Int)) (pin : Pin) (m : Machine) :
    (PinToGpio pin = some (-1) →
        (TogglePin mask pin m).1 = .ok () ∧
          (TogglePin mask pin (TogglePin mask pin m).2).1 = .ok () ∧
          (TogglePin mask pin (TogglePin mask pin m).2).2.gpioMem = m.gpioMem) ∧
      ∀ pv : Nat, ValidPin mask pin pv → m.gpioMem.length = GPIO_WORDS →
        (∀ w ∈ m.gpioMem, w < 2 ^ 32) →
        (TogglePin mask pin m).1 = .ok () ∧
          (TogglePin mask pin (TogglePin mask pin m).2).1 = .ok () ∧
          (TogglePin mask pin (TogglePin mask pin m).2).2.gpioMem = m.gpioMem := by
  refine ⟨?_, ?_⟩
  · intro hp
    have h := (sentinel_pin_noop mask pin Input Low PullOff m hp).2.2.2.2
    rw [h]
    exact ⟨rfl, by rw [h], by rw [h]⟩
  · intro pv hv hlen hwf
    obtain ⟨old, hold, ht⟩ := TogglePin_valid m hv hlen
    have hlt := (List.getElem?_eq_some_iff.mp hold).1
    have hlen1 : (TogglePin mask pin m).2.gpioMem.length = GPIO_WORDS := by
      rw [ht]; simpa using hlen
    obtain ⟨mid, hmid, ht2⟩ := TogglePin_valid _ hv hlen1
    have hmid2 : mid = writeWord (if old.testBit (pv &&& 31) then Low else High) old
        (pv &&& 31) := by
      rw [ht] at hmid
      simpa [List.getElem?_set_self, hlt] using hmid.symm
    have hold32 : old < 2 ^ 32 := hwf old (List.getElem?_mem hold)
    refine ⟨by rw [ht], by rw [ht2], ?_⟩
    rw [ht2, hmid2, writeWord_flip_flip old _ (and_31_lt pv) hold32, ht]
    simp only [List.set_set]
    exact set_same hold

theorem zeroMachine_words : ∀ w ∈ zeroMachine.gpioMem, w < 2 ^ 32 := by
  intro w hw
  have : w = 0 := List.eq_of_mem_replicate hw
  subst this
  norm_num

theorem TogglePin_involution_witness :
    ValidPin openMask 6 1 ∧ zeroMachine.gpioMem.length = GPIO_WORDS ∧
      (∀ w ∈ zeroMachine.gpioMem, w < 2 ^ 32) ∧
      (TogglePin openMask 6 (TogglePin openMask 6 zeroMachine).2).2.gpioMem =
        zeroMachine.gpioMem :=
  ⟨validPin_six, zeroMachine_length, zeroMachine_words,
    ((TogglePin_involution openMask 6 zeroMachine).2 1 validPin_six zeroMachine_length
      zeroMachine_words).2.2⟩

end Npio
